import Mathlib

/-! # AutoShortsWeb: the video splitter (`js/video-splitter.js`)

A shallow embedding of `initializeFFmpeg`, `formatDuration` and `splitVideo`.

Conventions of the embedding.

* A finite JavaScript number is the rational it stands for (`ℚ`); the product of line
  59, the quotient of line 75 and the product of line 79 are rounded to binary64
  (`roundDouble`), and the infinities and `NaN` they can yield are explicit
  (`JsNumber`, `JsCount`).  The argument `splitDurationMinutes` and the probed duration
  are finite numbers other than negative zero.
* The browser and the transcoding engine are outside the repository.  Everything they
  answer during one job is collected in an `Env`; `splitVideo` is a function of the
  `Env` and of the module state.
* The engine's virtual filesystem is a list of entry names, the chosen folder is a
  list of entries (name and payload).  An engine run that resolves has written its
  output entry; `getFileHandle` with `create: true` makes an empty entry when there is
  none, and the payload arrives when the writable stream is closed.
* A loop that does not end by itself (a bound of `Infinity`, or a bound above `2 ^ 53`,
  where `i++` no longer changes `i`) is followed for `fuel` iterations, at most
  `2 ^ 53`; nothing depends on `fuel` when the bound is at most `2 ^ 53`.
* Left out: the `progress` observer of lines 25-27, which only writes to the console,
  and the rendering of the error object by `console.error`.
-/

namespace VideoSplitter

/-! ## JavaScript values -/

/-- A thrown JavaScript value; the code inspects only `name` and `message`. -/
structure JsError where
  name : String
  message : String
deriving DecidableEq

deriving instance DecidableEq for Except

/-! ## Numbers (IEEE 754 binary64) -/

/-- A JavaScript number: a finite value other than negative zero (positive zero is
`fin 0`), negative zero, an infinity, or `NaN`. -/
inductive JsNumber where
  | fin (q : ℚ)
  | negZero
  | posInf
  | negInf
  | nan
deriving DecidableEq

/-- The position of the leading binary digit of `n`, counted from 0, found with at most
`fuel` halvings. -/
def leadingBit : Nat → Nat → Nat
  | 0, _ => 0
  | fuel + 1, n => if 2 ≤ n then leadingBit fuel (n / 2) + 1 else 0

/-- The binary exponent of a number `q` other than zero: the `e` with
`2 ^ e ≤ |q| < 2 ^ (e + 1)`. -/
def binaryExponent (q : ℚ) : Int :=
  let e0 : Int :=
    (leadingBit q.num.natAbs q.num.natAbs : Int) - (leadingBit q.den q.den : Int)
  if (2 : ℚ) ^ e0 ≤ |q| then e0 else e0 - 1

/-- Rounding to the nearest integer, a tie to the even one. -/
def roundHalfEven (y : ℚ) : Int :=
  if y - ⌊y⌋ < 1 / 2 then ⌊y⌋
  else if 1 / 2 < y - ⌊y⌋ then ⌊y⌋ + 1
  else if ⌊y⌋ % 2 = 0 then ⌊y⌋ else ⌊y⌋ + 1

/-- The distance between neighbouring binary64 values at the magnitude of `q`: 53
significant binary digits, and the exponent no lower than -1022 (subnormal range). -/
def unitInLastPlace (q : ℚ) : ℚ := (2 : ℚ) ^ (max (binaryExponent q) (-1022) - 52)

/-- The multiple of `unitInLastPlace q` nearest to `q`, a tie to the even multiple. -/
def nearestMultiple (q : ℚ) : ℚ := roundHalfEven (q / unitInLastPlace q) * unitInLastPlace q

/-- The binary64 value of a real result `q` (round to nearest, ties to even): what an
arithmetic operation of JavaScript returns in place of an exact result other than zero;
a negative result too small for binary64 becomes negative zero. -/
def roundDouble (q : ℚ) : JsNumber :=
  if q = 0 then .fin 0
  else if (2 : ℚ) ^ 1024 ≤ nearestMultiple q then .posInf
  else if nearestMultiple q ≤ -(2 : ℚ) ^ 1024 then .negInf
  else if q < 0 ∧ nearestMultiple q = 0 then .negZero
  else .fin (nearestMultiple q)

/-- The product `a * b` of JavaScript, for a finite `a` other than negative zero. -/
def jsMul (a : ℚ) : JsNumber → JsNumber
  | .fin b =>
    if a * b = 0 then (if a < 0 ∨ b < 0 then .negZero else .fin 0)
    else roundDouble (a * b)
  | .negZero => if a < 0 then .fin 0 else .negZero
  | .posInf => if 0 < a then .posInf else if a < 0 then .negInf else .nan
  | .negInf => if 0 < a then .negInf else if a < 0 then .posInf else .nan
  | .nan => .nan

/-- The quotient `a / b` of JavaScript, for a finite `a` other than negative zero. -/
def jsDiv (a : ℚ) : JsNumber → JsNumber
  | .fin b =>
    if b = 0 then (if 0 < a then .posInf else if a < 0 then .negInf else .nan)
    else if a = 0 then (if b < 0 then .negZero else .fin 0)
    else roundDouble (a / b)
  | .negZero => if 0 < a then .negInf else if a < 0 then .posInf else .nan
  | .posInf => if a < 0 then .negZero else .fin 0
  | .negInf => if a < 0 then .fin 0 else .negZero
  | .nan => .nan

/-! ## `Date.prototype.toISOString` (ECMAScript, sections 21.4.1 and 21.4.4.36) -/

/-- The operation `ToIntegerOrInfinity` on a finite number: rounding toward zero. -/
def toIntegerOrInfinity (v : ℚ) : Int := if 0 ≤ v then ⌊v⌋ else ⌈v⌉

/-- The operation `TimeClip`: a time value further than 8.64e15 ms from the epoch is
invalid. -/
def timeClip (v : ℚ) : Option Int :=
  if 8640000000000000 < |v| then none else some (toIntegerOrInfinity v)

/-- Year, month (1-12) and day of month (1-31) of a day number counted from the epoch
(`YearFromTime`, `MonthFromTime`, `DateFromTime` of the proleptic Gregorian calendar). -/
def civilFromDays (days : Int) : Int × Int × Int :=
  let z := days + 719468
  let era := z / 146097
  let doe := z - era * 146097
  let yoe := (doe - doe / 1460 + doe / 36524 - doe / 146096) / 365
  let doy := doe - (365 * yoe + yoe / 4 - yoe / 100)
  let mp := (5 * doy + 2) / 153
  let d := doy - (153 * mp + 2) / 5 + 1
  let m := if mp < 10 then mp + 3 else mp - 9
  let y := yoe + era * 400 + (if m ≤ 2 then 1 else 0)
  (y, m, d)

/-- The method `String.prototype.padStart(w, "0")`. -/
def padStart (w : Nat) (s : String) : String :=
  String.mk (List.replicate (w - s.length) '0') ++ s

/-- A non-negative integer as decimal digits, zero-padded to width `w`. -/
def pad (w : Nat) (n : Int) : String := padStart w (Nat.repr n.toNat)

/-- The year of an ISO string: four digits for years 0 to 9999, otherwise a sign and
six digits. -/
def yearField (y : Int) : String :=
  if 0 ≤ y ∧ y ≤ 9999 then pad 4 y
  else (if y < 0 then "-" else "+") ++ pad 6 (|y|)

/-- The result of `toISOString` for a valid time value `t` (milliseconds from the
epoch): `YYYY-MM-DDTHH:mm:ss.sssZ`. -/
def toISOString (t : Int) : String :=
  let ymd := civilFromDays (t / 86400000)
  yearField ymd.1 ++ "-" ++ pad 2 ymd.2.1 ++ "-" ++ pad 2 ymd.2.2 ++ "T"
    ++ pad 2 (t / 3600000 % 24) ++ ":" ++ pad 2 (t / 60000 % 60) ++ ":"
    ++ pad 2 (t / 1000 % 60) ++ "." ++ pad 3 (t % 1000) ++ "Z"

/-- The method `String.prototype.substr(start, len)` (all strings here are ASCII). -/
def substr (s : String) (start len : Nat) : String :=
  String.mk ((s.data.drop start).take len)

/-! ## `formatDuration` (lines 39-42) -/

/-- The expression `new Date(seconds * 1000).toISOString().substr(11, 8)`;
`toISOString` throws a `RangeError` on an invalid date. -/
def formatDuration (seconds : ℚ) : Except JsError String :=
  match timeClip (seconds * 1000) with
  | none => .error ⟨"RangeError", "Invalid time value"⟩
  | some t => .ok (substr (toISOString t) 11 8)

/-- The call `formatDuration(x)` for any number: an infinity or `NaN` makes an invalid
date, on which `toISOString` throws. -/
def formatTime : JsNumber → Except JsError String
  | .fin q => formatDuration q
  | .negZero => formatDuration 0
  | _ => .error ⟨"RangeError", "Invalid time value"⟩

/-! ## File names (lines 62, 81, 83) -/

/-- The expression `name.split('.').pop()`: the text after the last `.`, the whole name
when there is no `.`. -/
def extensionOf (name : String) : String :=
  String.mk (name.data.reverse.takeWhile (fun c => c != '.')).reverse

/-- Line 62: the name of the input inside the engine. -/
def internalInputName (originalName : String) : String :=
  "input." ++ extensionOf originalName

/-- Line 81, for the loop index `i` (0-based): the name of the segment inside the
engine. -/
def internalOutputName (i : Nat) : String :=
  "part_" ++ Nat.repr (i + 1) ++ ".mp4"

/-- Line 83, for the loop index `i` (0-based): the name of the segment in the chosen
folder. -/
def finalOutputName (i : Nat) (originalName : String) : String :=
  "part_" ++ Nat.repr (i + 1) ++ "_" ++ originalName

/-! ## Reading a clock string -/

/-- A two-digit decimal field: the tens digit, then the units digit. -/
def twoDigits (n : Nat) : String :=
  String.mk [Char.ofNat (48 + n / 10), Char.ofNat (48 + n % 10)]

/-- The clock string `HH:MM:SS` of three fields. -/
def clock (hh mm ss : Nat) : String :=
  twoDigits hh ++ ":" ++ twoDigits mm ++ ":" ++ twoDigits ss

/-- The clock string of a whole number of seconds below one day. -/
def clockOfSeconds (n : Nat) : String := clock (n / 3600) (n / 60 % 60) (n % 60)

/-! ## Segment count (line 75) -/

/-- The value of `Math.ceil(duration / splitDurationSeconds)`: an integer, an infinity or
`NaN`.  Negative zero is `fin 0` here: it prints as `0` and compares as 0. -/
inductive JsCount where
  | fin (n : Int)
  | posInf
  | negInf
  | nan
deriving DecidableEq

/-- The function `Math.ceil`. -/
def jsCeil : JsNumber → JsCount
  | .fin q => .fin ⌈q⌉
  | .negZero => .fin 0
  | .posInf => .posInf
  | .negInf => .negInf
  | .nan => .nan

/-- Line 75: `Math.ceil(duration / splitDurationSeconds)`. -/
def numSegments (duration : ℚ) (splitDurationSeconds : JsNumber) : JsCount :=
  jsCeil (jsDiv duration splitDurationSeconds)

/-! ## Numbers as text (ECMAScript, `Number::toString`) -/

/-- The decimal numerals `(s, n)` with `k` digits that read back as the integer double
`x`: `10 ^ (k - 1) ≤ s < 10 ^ k` and `s * 10 ^ (n - k)` rounds to `x`. -/
def numeralsOfLength (x k : Nat) : List (Nat × Nat) :=
  ([(Nat.repr x).length, (Nat.repr x).length + 1].flatMap (fun n =>
      if k ≤ n then [(x / 10 ^ (n - k), n), (x / 10 ^ (n - k) + 1, n)] else [])).filter
    (fun p => 10 ^ (k - 1) ≤ p.1 ∧ p.1 < 10 ^ k ∧
      roundDouble ((p.1 : ℚ) * 10 ^ (p.2 - k)) = .fin x)

/-- The numeral of `l` nearest to `x`, the first one on a tie of distances unless the
later one is even. -/
def nearestNumeral (x k : Nat) : List (Nat × Nat) → Option (Nat × Nat)
  | [] => none
  | p :: rest =>
    match nearestNumeral x k rest with
    | none => some p
    | some r =>
      let dp : ℚ := |(p.1 : ℚ) * 10 ^ (p.2 - k) - x|
      let dr : ℚ := |(r.1 : ℚ) * 10 ^ (r.2 - k) - x|
      if dp < dr then some p
      else if dr < dp then some r
      else if r.1 % 2 = 0 then some r else some p

/-- The shortest numeral that reads back as `x`, searched with 1 to 17 digits:
`(s, n, k)`. -/
def shortestNumeral (x : Nat) : Nat → Nat → Option (Nat × Nat × Nat)
  | 0, _ => none
  | fuel + 1, k =>
    match nearestNumeral x k (numeralsOfLength x k) with
    | some p => some (p.1, p.2, k)
    | none => shortestNumeral x fuel (k + 1)

/-- The text of an integer double `x ≥ 2 ^ 53`: the digits of the shortest numeral,
then zeros up to 21 digits, and the exponent form beyond. -/
def renderLarge (x : Nat) : String :=
  match shortestNumeral x 17 1 with
  | none => Nat.repr x
  | some (s, n, k) =>
    if n ≤ 21 then Nat.repr s ++ String.mk (List.replicate (n - k) '0')
    else if k = 1 then Nat.repr s ++ "e+" ++ Nat.repr (n - 1)
    else String.mk ((Nat.repr s).data.take 1) ++ "." ++ String.mk ((Nat.repr s).data.drop 1)
      ++ "e+" ++ Nat.repr (n - 1)

/-- The text of a count inside a template literal: every digit of an integer below
`2 ^ 53`, the shortest numeral that reads back beyond. -/
def JsCount.render : JsCount → String
  | .fin n =>
    if n.natAbs < 2 ^ 53 then toString n
    else (if n < 0 then "-" else "") ++ renderLarge n.natAbs
  | .posInf => "Infinity"
  | .negInf => "-Infinity"
  | .nan => "NaN"

/-- Whether the loop `for (let i = 0; i < numSegments; i++)` ends by itself: above
`2 ^ 53` the increment `i++` leaves `i` at `2 ^ 53`. -/
def JsCount.bounded : JsCount → Bool
  | .fin n => decide (n ≤ 2 ^ 53)
  | .posInf => false
  | .negInf => true
  | .nan => true

/-- How many iterations of the loop of line 78 are followed: all of them when the loop
ends by itself, otherwise `fuel` of them and at most `2 ^ 53`. -/
def loopCount (fuel : Nat) : JsCount → Nat
  | .fin n => if n ≤ 2 ^ 53 then n.toNat else min fuel (2 ^ 53)
  | .posInf => min fuel (2 ^ 53)
  | .negInf => 0
  | .nan => 0

/-- The values of `i` for which the followed iterations of the loop of line 78 run the
body, in order. -/
def loopIndices (fuel : Nat) (numSegments : JsCount) : List Nat :=
  List.range (loopCount fuel numSegments)

/-- Line 79: `startTime = i * splitDurationSeconds`. -/
def startTime (i : Nat) (splitDurationSeconds : JsNumber) : JsNumber :=
  jsMul i splitDurationSeconds

/-- The windows the loop visits: for each index its start (line 79) and the length it
hands to the engine (line 93). -/
def plannedWindows (fuel : Nat) (duration : ℚ) (splitDurationSeconds : JsNumber) :
    List (JsNumber × JsNumber) :=
  (loopIndices fuel (numSegments duration splitDurationSeconds)).map
    (fun i => (startTime i splitDurationSeconds, splitDurationSeconds))

/-! ## The world outside the module -/

/-- A call on a browser or engine API, as recorded in the order of the calls. -/
inductive Event where
  | showDirectoryPicker
  | newFFmpeg
  | on (event : String)
  | toBlobURL (url : String)
  | load
  | fetchFile (name : String)
  | writeFile (name : String)
  | ffprobe (name : String)
  | exec (args : List String)
  | readFile (name : String)
  | getFileHandle (name : String)
  | createWritable (name : String)
  | write (name : String)
  | close (name : String)
  | deleteFile (name : String)
deriving DecidableEq

/-- An awaited call on the engine: the lines the engine emits through its `log` event
while the call runs, then the value it resolves to or the error it rejects with. -/
structure EngineCall (α : Type) where
  logs : List String
  result : Except JsError α

/-- Everything the browser and the engine answer during one job.  The per-segment
answers are indexed by the loop index (0-based). -/
structure Env where
  showDirectoryPicker : Except JsError String
  coreURL : Except JsError Unit
  wasmURL : Except JsError Unit
  load : EngineCall Unit
  fetchFile : Except JsError Unit
  writeFile : EngineCall Unit
  ffprobe : EngineCall (Option ℚ)
  exec : Nat → EngineCall Unit
  readFile : Nat → EngineCall Unit
  getFileHandle : Nat → Except JsError Unit
  createWritable : Nat → Except JsError Unit
  write : Nat → Except JsError Unit
  close : Nat → Except JsError Unit
  deleteOutput : Nat → EngineCall Unit
  deleteInput : EngineCall Unit

/-- An entry of the chosen folder.  `payload = none`: created and never written;
`payload = some a`: holds the bytes read from the engine artifact `a` (or, for an
entry that was there before the job, whatever `a` stands for). -/
structure FolderEntry where
  name : String
  payload : Option String
deriving DecidableEq

/-- The module variables of `video-splitter.js` (lines 7-10), `state.uploadedFile`, and
the parts of the world the job acts on. -/
structure State where
  /-- The value of `state.uploadedFile`, by its `name`. -/
  uploadedFile : Option String
  /-- The module variable `ffmpeg`: which engine instance it holds. -/
  ffmpeg : Option Nat
  isFFmpegLoaded : Bool
  ffmpegLogs : List String
  outputFolderHandle : Option String
  /-- How many engine instances have been constructed. -/
  engines : Nat
  /-- The names in the virtual filesystem of the engine held by `ffmpeg`. -/
  fs : List String
  /-- The entries of the folder the picker hands out. -/
  folder : List FolderEntry
  /-- The texts shown with `alert`, oldest first. -/
  alerts : List String
  /-- The lines written with `console.log` and `console.error`. -/
  console : List String
  /-- The calls made on the browser and the engine, oldest first. -/
  trace : List Event
deriving DecidableEq

/-! ## Sequencing with exceptions -/

/-- A piece of asynchronous code: from a state to a result or a thrown error, and the
state it leaves. -/
def Job (α : Type) : Type := State → Except JsError α × State

/-- Sequencing: an error skips the rest and keeps the state reached. -/
def Job.bind {α β : Type} (m : Job α) (f : α → Job β) : Job β := fun s =>
  match m s with
  | (.ok a, s1) => f a s1
  | (.error e, s1) => (.error e, s1)

instance : Monad Job where
  pure a := fun s => (.ok a, s)
  bind := Job.bind

/-- The state once a call is recorded in the trace and the lines the engine emitted
while it ran have passed through the `log` observer of lines 20-23 (`console.log` and
`ffmpegLogs.push`). -/
def State.record (s : State) (ev : Event) (logs : List String) : State :=
  { s with trace := s.trace ++ [ev], ffmpegLogs := s.ffmpegLogs ++ logs,
           console := s.console ++ logs }

/-- An awaited engine call; `effect` is what a call that resolves does to the world. -/
def engineCall {α : Type} (ev : Event) (c : EngineCall α) (effect : State → State) : Job α :=
  fun s =>
    match c.result with
    | .ok a => (.ok a, effect (s.record ev c.logs))
    | .error e => (.error e, s.record ev c.logs)

/-- An awaited browser call. -/
def hostCall {α : Type} (ev : Event) (r : Except JsError α) (effect : α → State → State) :
    Job α :=
  fun s =>
    match r with
    | .ok a => (.ok a, effect a (s.record ev []))
    | .error e => (.error e, s.record ev [])

/-- The call `alert(msg)`. -/
def alert (msg : String) : Job Unit := fun s => (.ok (), { s with alerts := s.alerts ++ [msg] })

/-- The calls `console.log(msg)` and `console.error(msg)`. -/
def consoleLog (msg : String) : Job Unit :=
  fun s => (.ok (), { s with console := s.console ++ [msg] })

/-- An assignment to module variables. -/
def modify (f : State → State) : Job Unit := fun s => (.ok (), f s)

/-- Evaluating an expression that may throw. -/
def eval {α : Type} (r : Except JsError α) : Job α := fun s => (r, s)

/-- The virtual filesystem after a name is written. -/
def fsAdd (name : String) (fs : List String) : List String :=
  if name ∈ fs then fs else fs ++ [name]

/-- The virtual filesystem after a name is deleted. -/
def fsRemove (name : String) (fs : List String) : List String :=
  fs.filter (fun x => x != name)

/-- The folder after `getFileHandle(name, { create: true })`. -/
def folderTouch (name : String) (folder : List FolderEntry) : List FolderEntry :=
  if folder.any (fun e => e.name == name) then folder else folder ++ [⟨name, none⟩]

/-- The folder after the writable stream of `name` is closed: the entry holds what was
written. -/
def folderCommit (name : String) (payload : String) (folder : List FolderEntry) :
    List FolderEntry :=
  folder.map (fun e => if e.name = name then { e with payload := some payload } else e)

/-! ## `initializeFFmpeg` (lines 13-37) -/

/-- Lines 13-37. -/
def initializeFFmpeg (env : Env) : Job Unit := fun s =>
  if s.isFFmpegLoaded then (.ok (), s)
  else
    (do
      hostCall .newFFmpeg (.ok ())
        (fun _ t => { t with ffmpeg := some t.engines, engines := t.engines + 1, fs := [] })
      hostCall (.on "log") (.ok ()) (fun _ t => t)
      hostCall (.on "progress") (.ok ()) (fun _ t => t)
      hostCall (.toBlobURL "/node_modules/@ffmpeg/core/dist/esm/ffmpeg-core.js") env.coreURL
        (fun _ t => t)
      hostCall (.toBlobURL "/node_modules/@ffmpeg/core/dist/esm/ffmpeg-core.wasm") env.wasmURL
        (fun _ t => t)
      engineCall .load env.load (fun t => t)
      modify (fun t => { t with isFFmpegLoaded := true })
      consoleLog "✅ FFmpeg for video splitting initialized.") s

/-! ## `splitVideo` (lines 45-123) -/

/-- The constants of one job that the loop reads. -/
structure LoopCtx where
  originalName : String
  internalInputName : String
  splitDurationSeconds : JsNumber
  numSegments : JsCount
  folderName : String

/-- Line 76: the text that announces the number of segments. -/
def announceNotice (numSegments : JsCount) : String :=
  "총 " ++ numSegments.render
    ++ "개의 파일로 분할을 시작합니다.\n안정적인 처리를 위해 시간이 다소 걸릴 수 있습니다."

/-- Line 87: the text shown before the segment of index `i` is processed. -/
def progressNotice (ctx : LoopCtx) (i : Nat) : String :=
  "[" ++ Nat.repr (i + 1) ++ "/" ++ ctx.numSegments.render ++ "] 파일 분할 중...\n파일명: "
    ++ finalOutputName i ctx.originalName

/-- Line 111: the text shown when the job is complete. -/
def completionNotice (numSegments : JsCount) : String :=
  "✅ 영상 분할 완료! 총 " ++ numSegments.render ++ "개의 파일이 선택한 폴더에 저장되었습니다."

/-- Lines 79-107: the body of the segment loop for the index `i`. -/
def segmentBody (env : Env) (ctx : LoopCtx) (i : Nat) : Job Unit := do
  consoleLog ("Splitting part " ++ Nat.repr (i + 1) ++ "/" ++ ctx.numSegments.render ++ "...")
  alert (progressNotice ctx i)
  let ss ← eval (formatTime (startTime i ctx.splitDurationSeconds))
  let t ← eval (formatTime ctx.splitDurationSeconds)
  engineCall
    (.exec ["-i", ctx.internalInputName, "-ss", ss, "-t", t, "-c:v", "libx264", "-preset",
      "ultrafast", "-c:a", "aac", internalOutputName i])
    (env.exec i) (fun s => { s with fs := fsAdd (internalOutputName i) s.fs })
  engineCall (.readFile (internalOutputName i)) (env.readFile i) (fun s => s)
  hostCall (.getFileHandle (finalOutputName i ctx.originalName)) (env.getFileHandle i)
    (fun _ s => { s with folder := folderTouch (finalOutputName i ctx.originalName) s.folder })
  hostCall (.createWritable (finalOutputName i ctx.originalName)) (env.createWritable i)
    (fun _ s => s)
  hostCall (.write (finalOutputName i ctx.originalName)) (env.write i) (fun _ s => s)
  hostCall (.close (finalOutputName i ctx.originalName)) (env.close i)
    (fun _ s =>
      { s with folder :=
                 folderCommit (finalOutputName i ctx.originalName) (internalOutputName i)
                   s.folder })
  consoleLog ("✅ Saved " ++ finalOutputName i ctx.originalName ++ " to " ++ ctx.folderName)
  engineCall (.deleteFile (internalOutputName i)) (env.deleteOutput i)
    (fun s => { s with fs := fsRemove (internalOutputName i) s.fs })

/-- Lines 78-108: the body for each index of the loop, in order; the first error ends
the loop. -/
def segmentLoop (env : Env) (ctx : LoopCtx) : List Nat → Job Unit
  | [] => pure ()
  | i :: rest => do
    segmentBody env ctx i
    segmentLoop env ctx rest

/-- How control leaves the `try` block without an error. -/
inductive TryExit where
  /-- The `return` of line 72. -/
  | durationUnknown
  /-- The end of the block, after line 111. -/
  | completed
  /-- The loop does not end by itself and was still going when the fuel ran out. -/
  | running
deriving DecidableEq

/-- Lines 54-68: the folder is picked, the engine made ready, the input written into
the engine and probed.  Yields the folder name and the `duration` of the probe. -/
def openJob (env : Env) (file : String) : Job (String × Option ℚ) := do
  let folderName ← hostCall .showDirectoryPicker env.showDirectoryPicker
    (fun h s => { s with outputFolderHandle := some h })
  consoleLog ("📁 Selected output folder: " ++ folderName)
  initializeFFmpeg env
  hostCall (.fetchFile file) env.fetchFile (fun _ s => s)
  engineCall (.writeFile (internalInputName file)) env.writeFile
    (fun s => { s with fs := fsAdd (internalInputName file) s.fs })
  let duration ← engineCall (.ffprobe (internalInputName file)) env.ffprobe (fun s => s)
  pure (folderName, duration)

/-- Lines 76-111: the announcement, the loop, and the end of the job. -/
def runSegments (fuel : Nat) (env : Env) (ctx : LoopCtx) : Job TryExit := do
  alert (announceNotice ctx.numSegments)
  segmentLoop env ctx (loopIndices fuel ctx.numSegments)
  if ctx.numSegments.bounded then do
    engineCall (.deleteFile ctx.internalInputName) env.deleteInput
      (fun s => { s with fs := fsRemove ctx.internalInputName s.fs })
    alert (completionNotice ctx.numSegments)
    pure .completed
  else pure .running

/-- The constants of the job (lines 59-62 and 75). -/
def loopCtx (splitDurationMinutes : ℚ) (file folderName : String) (duration : ℚ) : LoopCtx :=
  { originalName := file
    internalInputName := internalInputName file
    splitDurationSeconds := roundDouble (splitDurationMinutes * 60)
    numSegments := numSegments duration (roundDouble (splitDurationMinutes * 60))
    folderName := folderName }

/-- Lines 70-111: after the probe.  A missing duration and zero are falsy (line 70). -/
def afterProbe (fuel : Nat) (env : Env) (splitDurationMinutes : ℚ) (file folderName : String) :
    Option ℚ → Job TryExit
  | none => do
    alert "영상의 길이를 확인할 수 없습니다."
    pure .durationUnknown
  | some d =>
    if d = 0 then do
      alert "영상의 길이를 확인할 수 없습니다."
      pure .durationUnknown
    else runSegments fuel env (loopCtx splitDurationMinutes file folderName d)

/-- Lines 54-111: the `try` block, for the uploaded file named `file`. -/
def tryBlock (fuel : Nat) (env : Env) (splitDurationMinutes : ℚ) (file : String) :
    Job TryExit := do
  let probed ← openJob env file
  afterProbe fuel env splitDurationMinutes file probed.1 probed.2

/-- How a call of `splitVideo` ends. -/
inductive Outcome where
  /-- Line 48: nothing was uploaded. -/
  | noInput
  /-- Line 72. -/
  | durationUnknown
  /-- After line 111. -/
  | completed
  /-- Line 115: the error was named `AbortError`. -/
  | cancelled
  /-- Line 120: any other error. -/
  | failed
  /-- Not ended: the loop does not end by itself. -/
  | running
deriving DecidableEq

/-- The expression `ffmpegLogs.slice(-5)`. -/
def lastFive (logs : List String) : List String := logs.drop (logs.length - 5)

/-- Line 120: the text of the failure notice. -/
def failureNotice (e : JsError) (logs : List String) : String :=
  "영상 분할 중 오류가 발생했습니다: " ++ e.message ++ "\n\n[상세 정보]\n"
    ++ "\n".intercalate (lastFive logs)

/-- Line 51: `ffmpegLogs = []`. -/
def State.clearLogs (s : State) : State := { s with ffmpegLogs := [] }

/-- Lines 45-123: `splitVideo(splitDurationMinutes)`. -/
def splitVideo (fuel : Nat) (env : Env) (splitDurationMinutes : ℚ) (s : State) :
    Outcome × State :=
  match s.uploadedFile with
  | none => (.noInput, { s with alerts := s.alerts ++ ["분할할 영상을 먼저 업로드해주세요."] })
  | some file =>
    let r := tryBlock fuel env splitDurationMinutes file s.clearLogs
    match r.1 with
    | .ok .durationUnknown => (.durationUnknown, r.2)
    | .ok .completed => (.completed, r.2)
    | .ok .running => (.running, r.2)
    | .error e =>
      if e.name = "AbortError" then
        (.cancelled, { r.2 with console := r.2.console ++ ["사용자가 폴더 선택을 취소했습니다."] })
      else
        (.failed, { r.2 with
          console := r.2.console ++ ["❌ 영상 분할 중 오류 발생: " ++ e.message],
          alerts := r.2.alerts ++ [failureNotice e r.2.ffmpegLogs] })

/-! ## Vocabulary of the statements -/

/-- The calls that `initializeFFmpeg` makes: the construction of the engine, the
registration of an observer, the fetch of a core resource and the load. -/
def Event.isInitialisation : Event → Bool
  | .newFFmpeg => true
  | .on _ => true
  | .toBlobURL _ => true
  | .load => true
  | _ => false

/-- What a job leaves untouched once the engine is loaded: the engine handle, its flag,
the number of engine instances, and the number of initialisation calls in the trace. -/
def SameEngine (s t : State) : Prop :=
  t.ffmpeg = s.ffmpeg ∧ t.isFFmpegLoaded = s.isFFmpegLoaded ∧ t.engines = s.engines ∧
  t.trace.countP Event.isInitialisation = s.trace.countP Event.isInitialisation

/-- The `-ss` and `-t` arguments of an engine run recorded in the trace. -/
def Event.windowArguments : Event → Option (String × String)
  | .exec args =>
    match args[3]?, args[5]? with
    | some ss, some t => some (ss, t)
    | _, _ => none
  | _ => none

/-- A window as it is handed to the engine: start and length formatted by
`formatDuration`. -/
def formattedWindow (w : JsNumber × JsNumber) : Option (String × String) :=
  match formatTime w.1, formatTime w.2 with
  | .ok ss, .ok t => some (ss, t)
  | _, _ => none

/-- The awaited calls of one loop iteration (lines 90-107), in order. -/
inductive Step where
  | exec
  | readFile
  | getFileHandle
  | createWritable
  | write
  | close
  | deleteFile
deriving DecidableEq

/-- The two time arguments of the engine call of segment `i` can be formatted. -/
def ArgsOk (ctx : LoopCtx) (i : Nat) : Prop :=
  (∃ a, formatTime (startTime i ctx.splitDurationSeconds) = .ok a) ∧
  ∃ b, formatTime ctx.splitDurationSeconds = .ok b

/-- Every call of segment `i` succeeds. -/
def SegmentOk (env : Env) (ctx : LoopCtx) (i : Nat) : Prop :=
  ArgsOk ctx i ∧ (env.exec i).result = .ok () ∧ (env.readFile i).result = .ok () ∧
  env.getFileHandle i = .ok () ∧ env.createWritable i = .ok () ∧ env.write i = .ok () ∧
  env.close i = .ok () ∧ (env.deleteOutput i).result = .ok ()

/-- The first call of segment `i` that fails is `st`, and it fails with `e`. -/
def FailsAt (env : Env) (ctx : LoopCtx) (i : Nat) : Step → JsError → Prop
  | .exec, e => ArgsOk ctx i ∧ (env.exec i).result = .error e
  | .readFile, e => ArgsOk ctx i ∧ (env.exec i).result = .ok () ∧
      (env.readFile i).result = .error e
  | .getFileHandle, e => ArgsOk ctx i ∧ (env.exec i).result = .ok () ∧
      (env.readFile i).result = .ok () ∧ env.getFileHandle i = .error e
  | .createWritable, e => ArgsOk ctx i ∧ (env.exec i).result = .ok () ∧
      (env.readFile i).result = .ok () ∧ env.getFileHandle i = .ok () ∧
      env.createWritable i = .error e
  | .write, e => ArgsOk ctx i ∧ (env.exec i).result = .ok () ∧
      (env.readFile i).result = .ok () ∧ env.getFileHandle i = .ok () ∧
      env.createWritable i = .ok () ∧ env.write i = .error e
  | .close, e => ArgsOk ctx i ∧ (env.exec i).result = .ok () ∧
      (env.readFile i).result = .ok () ∧ env.getFileHandle i = .ok () ∧
      env.createWritable i = .ok () ∧ env.write i = .ok () ∧ env.close i = .error e
  | .deleteFile, e => ArgsOk ctx i ∧ (env.exec i).result = .ok () ∧
      (env.readFile i).result = .ok () ∧ env.getFileHandle i = .ok () ∧
      env.createWritable i = .ok () ∧ env.write i = .ok () ∧ env.close i = .ok () ∧
      (env.deleteOutput i).result = .error e

/-- The folder once segment `i` is written completely. -/
def folderWithSegment (originalName : String) (i : Nat) (folder : List FolderEntry) :
    List FolderEntry :=
  folderCommit (finalOutputName i originalName) (internalOutputName i)
    (folderTouch (finalOutputName i originalName) folder)

/-- The folder after segment `i` failed in the step `st`. -/
def folderAfterFailure (originalName : String) (i : Nat) (folder : List FolderEntry) :
    Step → List FolderEntry
  | .exec => folder
  | .readFile => folder
  | .getFileHandle => folder
  | .createWritable => folderTouch (finalOutputName i originalName) folder
  | .write => folderTouch (finalOutputName i originalName) folder
  | .close => folderTouch (finalOutputName i originalName) folder
  | .deleteFile => folderWithSegment originalName i folder

/-- Every call before the loop succeeds: the picker grants the folder `folderName`, the
engine is loaded already or loads now, the input is fetched and written, and the probe
reports the duration `d`. -/
def Opens (env : Env) (s : State) (folderName : String) (d : ℚ) : Prop :=
  env.showDirectoryPicker = .ok folderName ∧
  (s.isFFmpegLoaded = true ∨
    (env.coreURL = .ok () ∧ env.wasmURL = .ok () ∧ env.load.result = .ok ())) ∧
  env.fetchFile = .ok () ∧ env.writeFile.result = .ok () ∧
  env.ffprobe.result = .ok (some d)

/-- The state after a sequence of calls of `initializeFFmpeg`, one world per call. -/
def initializeAll (envs : List Env) (s : State) : State :=
  envs.foldl (fun st env => (initializeFFmpeg env st).2) s

/-- The folder once the segments of the indices in `l` are written completely, in
order. -/
def folderWithSegments (originalName : String) (l : List Nat) (folder : List FolderEntry) :
    List FolderEntry :=
  l.foldl (fun fo i => folderWithSegment originalName i fo) folder

/-! ## Sample jobs -/

/-- An engine call that emits nothing and succeeds. -/
def quietCall : EngineCall Unit := ⟨[], .ok ()⟩

/-- A world in which every call succeeds; the probe reports 125 seconds. -/
def sampleEnv : Env :=
  { showDirectoryPicker := .ok "out"
    coreURL := .ok ()
    wasmURL := .ok ()
    load := ⟨["loaded"], .ok ()⟩
    fetchFile := .ok ()
    writeFile := quietCall
    ffprobe := ⟨["probe"], .ok (some 125)⟩
    exec := fun i => ⟨["frame " ++ Nat.repr i], .ok ()⟩
    readFile := fun _ => quietCall
    getFileHandle := fun _ => .ok ()
    createWritable := fun _ => .ok ()
    write := fun _ => .ok ()
    close := fun _ => .ok ()
    deleteOutput := fun _ => quietCall
    deleteInput := quietCall }

/-- The module state of a fresh page with `clip.mov` uploaded. -/
def sampleState : State :=
  { uploadedFile := some "clip.mov", ffmpeg := none, isFFmpegLoaded := false, ffmpegLogs := [],
    outputFolderHandle := none, engines := 0, fs := [], folder := [], alerts := [],
    console := [], trace := [] }

/-- The world of `sampleEnv`, but the user dismisses the folder picker. -/
def pickerCancelled : Env :=
  { sampleEnv with
    showDirectoryPicker := .error ⟨"AbortError", "The user aborted a request."⟩ }

/-- The world of `sampleEnv`, but the probe reports no duration. -/
def probeWithoutDuration : Env :=
  { sampleEnv with ffprobe := ⟨[], .ok none⟩ }

/-- The world of `sampleEnv`, but the engine cannot read back an encoded segment. -/
def readFails : Env :=
  { sampleEnv with readFile := fun _ => ⟨[], .error ⟨"Error", "FS error"⟩⟩ }

/-- The world of `sampleEnv`, but `createWritable` for the second segment is rejected
with an error named `AbortError`. -/
def createWritableAborted : Env :=
  { sampleEnv with
    createWritable := fun i =>
      if i = 1 then .error ⟨"AbortError", "The operation was aborted."⟩ else .ok () }

/-- A world with a probe of 300 seconds in which the engine cannot delete the artifact
of the second segment. -/
def deleteFails : Env :=
  { sampleEnv with
    load := quietCall
    ffprobe := ⟨[], .ok (some 300)⟩
    exec := fun _ => ⟨["encoding"], .ok ()⟩
    deleteOutput := fun i => if i = 1 then ⟨[], .error ⟨"Error", "boom"⟩⟩ else quietCall }

/-- The binary64 value of the literal `0.01`, a split duration in minutes. -/
def shortMinutes : ℚ := 5764607523034235 / 576460752303423488

/-- The binary64 value of the literal `0.6`: the product `0.01 * 60` of line 59. -/
def shortLength : ℚ := 5404319552844595 / 9007199254740992

/-! # Lemmas and theorems -/

/-! ## Decimal digits -/

theorem digitChar_isDigit : ∀ m : Fin 10, (Nat.digitChar m.val).isDigit = true := by decide

theorem digitChar_value : ∀ m : Fin 10, (Nat.digitChar m.val).toNat - 48 = m.val := by decide

theorem toDigitsCore_append (f : Nat) : ∀ (n : Nat) (ds : List Char),
    Nat.toDigitsCore 10 f n ds = Nat.toDigitsCore 10 f n [] ++ ds := by
  induction f with
  | zero => intro n ds; simp [Nat.toDigitsCore]
  | succ f ih =>
    intro n ds
    simp only [Nat.toDigitsCore]
    split
    · simp
    · rw [ih (n / 10) (Nat.digitChar (n % 10) :: ds), ih (n / 10) [Nat.digitChar (n % 10)]]
      simp

theorem toDigitsCore_isDigit (f : Nat) : ∀ (n : Nat) (c : Char),
    c ∈ Nat.toDigitsCore 10 f n [] → c.isDigit = true := by
  induction f with
  | zero => intro n c h; simp [Nat.toDigitsCore] at h
  | succ f ih =>
    intro n c h
    have hd : (Nat.digitChar (n % 10)).isDigit = true :=
      digitChar_isDigit ⟨n % 10, Nat.mod_lt _ (by decide)⟩
    simp only [Nat.toDigitsCore] at h
    split at h
    · simp at h; rw [h]; exact hd
    · rw [toDigitsCore_append] at h
      simp at h
      rcases h with h | h
      · exact ih _ _ h
      · rw [h]; exact hd

theorem repr_isDigit (n : Nat) (c : Char) (h : c ∈ (Nat.repr n).data) : c.isDigit = true :=
  toDigitsCore_isDigit (n + 1) n c h

theorem valueOf_toDigitsCore (f : Nat) : ∀ n : Nat, n < f →
    (Nat.toDigitsCore 10 f n []).foldl (fun acc c => 10 * acc + (c.toNat - 48)) 0 = n := by
  induction f with
  | zero => intro n h; omega
  | succ f ih =>
    intro n h
    have hd : (Nat.digitChar (n % 10)).toNat - 48 = n % 10 :=
      digitChar_value ⟨n % 10, Nat.mod_lt _ (by decide)⟩
    simp only [Nat.toDigitsCore]
    split
    · rename_i h0
      simp [hd]; omega
    · rename_i h0
      rw [toDigitsCore_append, List.foldl_append, ih (n / 10) (by omega)]
      simp [hd]; omega

theorem repr_injective (a b : Nat) (h : Nat.repr a = Nat.repr b) : a = b := by
  have h1 := valueOf_toDigitsCore (a + 1) a (by omega)
  have h2 := valueOf_toDigitsCore (b + 1) b (by omega)
  have h3 : Nat.toDigitsCore 10 (a + 1) a [] = Nat.toDigitsCore 10 (b + 1) b [] :=
    congrArg String.data h
  rw [h3] at h1
  omega

/-- Two texts that start with digits and continue with a character that is no digit
agree on the digits and on that character. -/
theorem digits_then_other : ∀ (d1 d2 : List Char) (c1 c2 : Char) (r1 r2 : List Char),
    (∀ c ∈ d1, c.isDigit = true) → (∀ c ∈ d2, c.isDigit = true) →
    c1.isDigit = false → c2.isDigit = false →
    d1 ++ c1 :: r1 = d2 ++ c2 :: r2 → c1 = c2 := by
  intro d1
  induction d1 with
  | nil =>
    intro d2 c1 c2 r1 r2 _ h2 hc1 _ h
    cases d2 with
    | nil => simp at h; exact h.1
    | cons x d2 =>
      simp at h
      have := h2 x (by simp)
      rw [← h.1, hc1] at this
      exact absurd this (by simp)
  | cons y d1 ih =>
    intro d2 c1 c2 r1 r2 h1 h2 hc1 hc2 h
    cases d2 with
    | nil =>
      simp at h
      have := h1 y (by simp)
      rw [h.1, hc2] at this
      exact absurd this (by simp)
    | cons x d2 =>
      simp at h
      exact ih d2 c1 c2 r1 r2 (fun c hc => h1 c (by simp [hc])) (fun c hc => h2 c (by simp [hc]))
        hc1 hc2 h.2

/-! ## Names -/

theorem finalOutputName_data (i : Nat) (name : String) :
    (finalOutputName i name).data
      = ['p', 'a', 'r', 't', '_'] ++ ((Nat.repr (i + 1)).data ++ '_' :: name.data) := by
  simp [finalOutputName, String.data_append]

theorem internalOutputName_data (i : Nat) :
    (internalOutputName i).data
      = ['p', 'a', 'r', 't', '_'] ++ ((Nat.repr (i + 1)).data ++ '.' :: ['m', 'p', '4']) := by
  simp [internalOutputName, String.data_append]

theorem internalInputName_data (name : String) :
    (internalInputName name).data
      = 'i' :: (['n', 'p', 'u', 't', '.'] ++ (extensionOf name).data) := by
  simp [internalInputName, String.data_append]

theorem finalOutputName_injective (i j : Nat) (name : String)
    (h : finalOutputName i name = finalOutputName j name) : i = j := by
  have h1 := congrArg String.data h
  rw [finalOutputName_data, finalOutputName_data] at h1
  have h2 := List.append_cancel_left h1
  have h3 := List.append_cancel_right h2
  have h4 : Nat.repr (i + 1) = Nat.repr (j + 1) := String.ext h3
  have := repr_injective _ _ h4
  omega

theorem finalOutputName_ne_internalOutputName (i j : Nat) (name : String) :
    finalOutputName i name ≠ internalOutputName j := by
  intro h
  have h1 := congrArg String.data h
  rw [finalOutputName_data, internalOutputName_data] at h1
  have h2 := List.append_cancel_left h1
  have := digits_then_other _ _ _ _ _ _ (repr_isDigit _) (repr_isDigit _) (by decide) (by decide) h2
  exact absurd this (by decide)

theorem finalOutputName_ne_internalInputName (i : Nat) (name : String) :
    finalOutputName i name ≠ internalInputName name := by
  intro h
  have h1 := congrArg String.data h
  rw [finalOutputName_data, internalInputName_data] at h1
  simp at h1

theorem internalOutputName_ne_internalInputName (i : Nat) (name : String) :
    internalOutputName i ≠ internalInputName name := by
  intro h
  have h1 := congrArg String.data h
  rw [internalOutputName_data, internalInputName_data] at h1
  simp at h1

/-! ## Lemmas on `formatDuration` -/

theorem pad_two_fin : ∀ n : Fin 100, pad 2 (n.val : Int) = twoDigits n.val := by decide

theorem pad_two (x : Int) (h0 : 0 ≤ x) (h1 : x < 100) : pad 2 x = twoDigits x.toNat := by
  obtain ⟨n, rfl⟩ := Int.eq_ofNat_of_zero_le h0
  have hn : n < 100 := by omega
  simpa using pad_two_fin ⟨n, hn⟩

theorem floor_scaled (s : ℚ) : ⌊s * 1000⌋ / 1000 = ⌊s⌋ := by
  have h1 : (⌊s⌋ : ℚ) ≤ s := Int.floor_le s
  have h2 : s < ⌊s⌋ + 1 := Int.lt_floor_add_one s
  have h3 : 1000 * ⌊s⌋ ≤ ⌊s * 1000⌋ := by
    rw [Int.le_floor]; push_cast; linarith
  have h4 : ⌊s * 1000⌋ < 1000 * (⌊s⌋ + 1) := by
    rw [Int.floor_lt]; push_cast; linarith
  omega

theorem toISOString_epoch_day (t : Int) (h0 : 0 ≤ t) (h1 : t < 86400000) :
    toISOString t = "1970-01-01T" ++ pad 2 (t / 3600000 % 24) ++ ":" ++ pad 2 (t / 60000 % 60)
      ++ ":" ++ pad 2 (t / 1000 % 60) ++ "." ++ pad 3 (t % 1000) ++ "Z" := by
  have hd : t / 86400000 = 0 := by omega
  have hc : civilFromDays 0 = (1970, 1, 1) := by decide
  have hy : yearField 1970 = "1970" := by decide
  have hp : pad 2 1 = "01" := by decide
  simp only [toISOString, hd, hc, hy, hp]
  rfl

theorem substr_clock (hh mm ss : Nat) (rest : String) :
    substr ("1970-01-01T" ++ twoDigits hh ++ ":" ++ twoDigits mm ++ ":" ++ twoDigits ss
      ++ "." ++ rest ++ "Z") 11 8 = clock hh mm ss := by
  simp [substr, clock, twoDigits, String.data_append]
  rfl

/-- Below one day `formatDuration` is the clock string of the whole seconds. -/
theorem formatDuration_eq (s : ℚ) (h0 : 0 ≤ s) (h1 : s < 86400) :
    formatDuration s = .ok (clockOfSeconds ⌊s⌋.toNat) := by
  have hv0 : (0 : ℚ) ≤ s * 1000 := by positivity
  have ht0 : 0 ≤ ⌊s * 1000⌋ := Int.floor_nonneg.mpr hv0
  have ht1 : ⌊s * 1000⌋ < 86400000 := by rw [Int.floor_lt]; push_cast; linarith
  have hn0 : 0 ≤ ⌊s⌋ := Int.floor_nonneg.mpr h0
  have hq := floor_scaled s
  have hclip : timeClip (s * 1000) = some ⌊s * 1000⌋ := by
    have : ¬ (8640000000000000 < |s * 1000|) := by
      rw [abs_of_nonneg hv0]; linarith
    simp [timeClip, toIntegerOrInfinity, this, hv0]
  have b1 : 0 ≤ ⌊s * 1000⌋ / 3600000 % 24 ∧ ⌊s * 1000⌋ / 3600000 % 24 < 100 := by omega
  have b2 : 0 ≤ ⌊s * 1000⌋ / 60000 % 60 ∧ ⌊s * 1000⌋ / 60000 % 60 < 100 := by omega
  have b3 : 0 ≤ ⌊s * 1000⌋ / 1000 % 60 ∧ ⌊s * 1000⌋ / 1000 % 60 < 100 := by omega
  have e1 : (⌊s * 1000⌋ / 3600000 % 24).toNat = ⌊s⌋.toNat / 3600 := by omega
  have e2 : (⌊s * 1000⌋ / 60000 % 60).toNat = ⌊s⌋.toNat / 60 % 60 := by omega
  have e3 : (⌊s * 1000⌋ / 1000 % 60).toNat = ⌊s⌋.toNat % 60 := by omega
  unfold formatDuration
  rw [hclip]
  show Except.ok (substr (toISOString ⌊s * 1000⌋) 11 8) = _
  rw [toISOString_epoch_day _ ht0 ht1, pad_two _ b1.1 b1.2, pad_two _ b2.1 b2.2,
    pad_two _ b3.1 b3.2, substr_clock, e1, e2, e3, clockOfSeconds]

theorem clock_length (hh mm ss : Nat) : (clock hh mm ss).length = 8 := by
  simp [clock, twoDigits, String.length, String.data_append]

theorem clock_data (hh mm ss : Nat) :
    (clock hh mm ss).data =
      [Char.ofNat (48 + hh / 10), Char.ofNat (48 + hh % 10), Char.ofNat (48 + 10),
       Char.ofNat (48 + mm / 10), Char.ofNat (48 + mm % 10), Char.ofNat (48 + 10),
       Char.ofNat (48 + ss / 10), Char.ofNat (48 + ss % 10)] := by
  simp [clock, twoDigits, String.data_append]

theorem digit_lt_fin : ∀ a b : Fin 11, a < b → Char.ofNat (48 + a.val) < Char.ofNat (48 + b.val) := by
  decide

theorem digit_lt (a b : Nat) (hab : a < b) (hb : b ≤ 10) :
    Char.ofNat (48 + a) < Char.ofNat (48 + b) :=
  digit_lt_fin ⟨a, by omega⟩ ⟨b, by omega⟩ hab

/-- The clock strings of whole seconds below one day are ordered like the seconds. -/
theorem clockOfSeconds_lt (a b : Nat) (hab : a < b) (hb : b < 86400) :
    clockOfSeconds a < clockOfSeconds b := by
  rw [String.lt_iff_toList_lt]
  show List.Lex (· < ·) (clockOfSeconds a).data (clockOfSeconds b).data
  rw [clockOfSeconds, clockOfSeconds, clock_data, clock_data]
  rcases Nat.lt_trichotomy (a / 3600 / 10) (b / 3600 / 10) with h | h | h
  · exact List.Lex.rel (digit_lt _ _ h (by omega))
  swap
  · omega
  rw [h]; refine List.Lex.cons ?_
  rcases Nat.lt_trichotomy (a / 3600 % 10) (b / 3600 % 10) with h | h | h
  · exact List.Lex.rel (digit_lt _ _ h (by omega))
  swap
  · omega
  rw [h]; refine List.Lex.cons (List.Lex.cons ?_)
  rcases Nat.lt_trichotomy (a / 60 % 60 / 10) (b / 60 % 60 / 10) with h | h | h
  · exact List.Lex.rel (digit_lt _ _ h (by omega))
  swap
  · omega
  rw [h]; refine List.Lex.cons ?_
  rcases Nat.lt_trichotomy (a / 60 % 60 % 10) (b / 60 % 60 % 10) with h | h | h
  · exact List.Lex.rel (digit_lt _ _ h (by omega))
  swap
  · omega
  rw [h]; refine List.Lex.cons (List.Lex.cons ?_)
  rcases Nat.lt_trichotomy (a % 60 / 10) (b % 60 / 10) with h | h | h
  · exact List.Lex.rel (digit_lt _ _ h (by omega))
  swap
  · omega
  rw [h]; refine List.Lex.cons ?_
  rcases Nat.lt_trichotomy (a % 60 % 10) (b % 60 % 10) with h | h | h
  · exact List.Lex.rel (digit_lt _ _ h (by omega))
  swap
  · omega
  omega

/-! ## Unfolding lemmas -/

@[simp]
theorem bind_apply {α β : Type} (m : Job α) (f : α → Job β) (s : State) :
    (m >>= f) s =
      (match m s with
       | (.ok a, s1) => f a s1
       | (.error e, s1) => (.error e, s1)) := rfl

@[simp]
theorem pure_apply {α : Type} (a : α) (s : State) :
    (pure a : Job α) s = (.ok a, s) := rfl

@[simp]
theorem alert_apply (msg : String) (s : State) :
    alert msg s = (.ok (), { s with alerts := s.alerts ++ [msg] }) := rfl

@[simp]
theorem consoleLog_apply (msg : String) (s : State) :
    consoleLog msg s = (.ok (), { s with console := s.console ++ [msg] }) := rfl

@[simp]
theorem modify_apply (f : State → State) (s : State) : modify f s = (.ok (), f s) := rfl

@[simp]
theorem eval_apply {α : Type} (r : Except JsError α) (s : State) :
    eval r s = (r, s) := rfl

@[simp]
theorem engineCall_apply {α : Type} (ev : Event) (c : EngineCall α)
    (eff : State → State) (s : State) :
    engineCall ev c eff s =
      (match c.result with
       | .ok a => (.ok a, eff (s.record ev c.logs))
       | .error e => (.error e, s.record ev c.logs)) := rfl

@[simp]
theorem hostCall_apply {α : Type} (ev : Event) (r : Except JsError α)
    (eff : α → State → State) (s : State) :
    hostCall ev r eff s =
      (match r with
       | .ok a => (.ok a, eff a (s.record ev []))
       | .error e => (.error e, s.record ev [])) := rfl

/-! ## The virtual filesystem and the folder -/

theorem mem_fsAdd (x name : String) (fs : List String) :
    x ∈ fsAdd name fs ↔ x = name ∨ x ∈ fs := by
  unfold fsAdd
  split
  · constructor
    · intro h; exact Or.inr h
    · rintro (h | h)
      · rw [h]; assumption
      · exact h
  · simp [or_comm]

theorem mem_fsRemove (x name : String) (fs : List String) :
    x ∈ fsRemove name fs ↔ x ∈ fs ∧ x ≠ name := by
  simp [fsRemove]

theorem mem_folderTouch_of_ne (e : FolderEntry) (name : String) (folder : List FolderEntry)
    (h : e.name ≠ name) : e ∈ folderTouch name folder ↔ e ∈ folder := by
  unfold folderTouch
  split
  · rfl
  · simp only [List.mem_append, List.mem_singleton]
    constructor
    · rintro (h1 | h1)
      · exact h1
      · rw [h1] at h; exact absurd rfl h
    · intro h1; exact Or.inl h1

theorem mem_folderCommit_of_ne (e : FolderEntry) (name payload : String)
    (folder : List FolderEntry) (h : e.name ≠ name) :
    e ∈ folderCommit name payload folder ↔ e ∈ folder := by
  unfold folderCommit
  simp only [List.mem_map]
  constructor
  · rintro ⟨a, ha, hae⟩
    by_cases hn : a.name = name
    · rw [if_pos hn] at hae
      rw [← hae] at h
      exact absurd hn h
    · rw [if_neg hn] at hae
      rw [← hae]; exact ha
  · intro he
    exact ⟨e, he, by rw [if_neg h]⟩

theorem mem_folderWithSegment_of_ne (e : FolderEntry) (name : String) (i : Nat)
    (folder : List FolderEntry) (h : e.name ≠ finalOutputName i name) :
    e ∈ folderWithSegment name i folder ↔ e ∈ folder := by
  unfold folderWithSegment
  rw [mem_folderCommit_of_ne _ _ _ _ h, mem_folderTouch_of_ne _ _ _ h]

theorem exists_mem_folderTouch (name : String) (folder : List FolderEntry) :
    ∃ e ∈ folderTouch name folder, e.name = name := by
  unfold folderTouch
  split
  · rename_i h
    simpa using h
  · exact ⟨⟨name, none⟩, by simp, rfl⟩

theorem mem_folderWithSegment (name : String) (i : Nat) (folder : List FolderEntry) :
    ⟨finalOutputName i name, some (internalOutputName i)⟩ ∈ folderWithSegment name i folder := by
  obtain ⟨e, he, hn⟩ := exists_mem_folderTouch (finalOutputName i name) folder
  unfold folderWithSegment folderCommit
  simp only [List.mem_map]
  refine ⟨e, he, ?_⟩
  rw [if_pos hn, ← hn]

theorem folderTouch_fresh (name : String) (folder : List FolderEntry)
    (h : ∀ e ∈ folder, e.name ≠ name) : folderTouch name folder = folder ++ [⟨name, none⟩] := by
  unfold folderTouch
  rw [if_neg]
  simpa using h

/-! ## One iteration of the loop -/

theorem SameEngine.refl (s : State) : SameEngine s s := ⟨rfl, rfl, rfl, rfl⟩

theorem SameEngine.trans {s t u : State} (h1 : SameEngine s t) (h2 : SameEngine t u) :
    SameEngine s u := by
  obtain ⟨a1, a2, a3, a4⟩ := h1
  obtain ⟨b1, b2, b3, b4⟩ := h2
  exact ⟨b1.trans a1, b2.trans a2, b3.trans a3, b4.trans a4⟩

/-- Whatever the world answers, an iteration shows its progress notice, leaves the
engine and the uploaded file alone, and, when it ends without error, leaves no new
name in the virtual filesystem. -/
theorem segmentBody_frame (env : Env) (ctx : LoopCtx) (i : Nat) (s : State) :
    (segmentBody env ctx i s).2.alerts = s.alerts ++ [progressNotice ctx i] ∧
    SameEngine s (segmentBody env ctx i s).2 ∧
    ((segmentBody env ctx i s).1 = .ok () → ∀ x ∈ (segmentBody env ctx i s).2.fs, x ∈ s.fs) := by
  unfold segmentBody
  rcases h1 : formatTime (startTime i ctx.splitDurationSeconds) with e | a
  · simp [h1, SameEngine, State.record, Event.isInitialisation]
  rcases h2 : formatTime ctx.splitDurationSeconds with e | a
  · simp [h1, h2, SameEngine, State.record, Event.isInitialisation]
  rcases h3 : (env.exec i).result with e | a
  · simp [h1, h2, h3, SameEngine, State.record, Event.isInitialisation]
  rcases h4 : (env.readFile i).result with e | a
  · simp [h1, h2, h3, h4, SameEngine, State.record, Event.isInitialisation]
  rcases h5 : env.getFileHandle i with e | a
  · simp [h1, h2, h3, h4, h5, SameEngine, State.record, Event.isInitialisation]
  rcases h6 : env.createWritable i with e | a
  · simp [h1, h2, h3, h4, h5, h6, SameEngine, State.record, Event.isInitialisation]
  rcases h7 : env.write i with e | a
  · simp [h1, h2, h3, h4, h5, h6, h7, SameEngine, State.record, Event.isInitialisation]
  rcases h8 : env.close i with e | a
  · simp [h1, h2, h3, h4, h5, h6, h7, h8, SameEngine, State.record, Event.isInitialisation]
  rcases h9 : (env.deleteOutput i).result with e | a
  · simp [h1, h2, h3, h4, h5, h6, h7, h8, h9, SameEngine, State.record, Event.isInitialisation]
  · simp only [bind_apply, alert_apply, consoleLog_apply, eval_apply, engineCall_apply,
      hostCall_apply, h1, h2, h3, h4, h5, h6, h7, h8, h9, SameEngine, State.record, Event.isInitialisation]
    refine ⟨trivial, ?_, ?_⟩
    · simp [Event.isInitialisation]
    · intro _ x hx
      simp only [mem_fsRemove, mem_fsAdd] at hx
      tauto

theorem segmentBody_ok (env : Env) (ctx : LoopCtx) (i : Nat) (s : State)
    (h : SegmentOk env ctx i) :
    (segmentBody env ctx i s).1 = .ok () ∧
    (segmentBody env ctx i s).2.folder = folderWithSegment ctx.originalName i s.folder ∧
    (segmentBody env ctx i s).2.trace.filterMap Event.windowArguments
      = s.trace.filterMap Event.windowArguments
        ++ (formattedWindow (startTime i ctx.splitDurationSeconds,
              ctx.splitDurationSeconds)).toList := by
  obtain ⟨⟨⟨a, ha⟩, ⟨b, hb⟩⟩, h3, h4, h5, h6, h7, h8, h9⟩ := h
  have hw : formattedWindow (startTime i ctx.splitDurationSeconds, ctx.splitDurationSeconds)
      = some (a, b) := by
    unfold formattedWindow
    show (match formatTime (startTime i ctx.splitDurationSeconds),
      formatTime ctx.splitDurationSeconds with
      | .ok ss, .ok t => some (ss, t)
      | _, _ => none) = some (a, b)
    rw [ha, hb]
  rw [hw]
  simp [segmentBody, ha, hb, h3, h4, h5, h6, h7, h8, h9, State.record, folderWithSegment,
    Event.windowArguments]

theorem segmentBody_fail (env : Env) (ctx : LoopCtx) (i : Nat) (s : State) (st : Step)
    (e : JsError) (h : FailsAt env ctx i st e) :
    (segmentBody env ctx i s).1 = .error e ∧
    (segmentBody env ctx i s).2.folder = folderAfterFailure ctx.originalName i s.folder st := by
  cases st
  · obtain ⟨⟨⟨a, ha⟩, ⟨b, hb⟩⟩, h3⟩ := h
    simp [segmentBody, ha, hb, h3, State.record, folderAfterFailure]
  · obtain ⟨⟨⟨a, ha⟩, ⟨b, hb⟩⟩, h3, h4⟩ := h
    simp [segmentBody, ha, hb, h3, h4, State.record, folderAfterFailure]
  · obtain ⟨⟨⟨a, ha⟩, ⟨b, hb⟩⟩, h3, h4, h5⟩ := h
    simp [segmentBody, ha, hb, h3, h4, h5, State.record, folderAfterFailure]
  · obtain ⟨⟨⟨a, ha⟩, ⟨b, hb⟩⟩, h3, h4, h5, h6⟩ := h
    simp [segmentBody, ha, hb, h3, h4, h5, h6, State.record, folderAfterFailure]
  · obtain ⟨⟨⟨a, ha⟩, ⟨b, hb⟩⟩, h3, h4, h5, h6, h7⟩ := h
    simp [segmentBody, ha, hb, h3, h4, h5, h6, h7, State.record, folderAfterFailure]
  · obtain ⟨⟨⟨a, ha⟩, ⟨b, hb⟩⟩, h3, h4, h5, h6, h7, h8⟩ := h
    simp [segmentBody, ha, hb, h3, h4, h5, h6, h7, h8, State.record, folderAfterFailure]
  · obtain ⟨⟨⟨a, ha⟩, ⟨b, hb⟩⟩, h3, h4, h5, h6, h7, h8, h9⟩ := h
    simp [segmentBody, ha, hb, h3, h4, h5, h6, h7, h8, h9, State.record, folderAfterFailure,
      folderWithSegment]

/-! ## The loop -/

theorem segmentLoop_nil (env : Env) (ctx : LoopCtx) (s : State) :
    segmentLoop env ctx [] s = (.ok (), s) := rfl

theorem segmentLoop_cons (env : Env) (ctx : LoopCtx) (i : Nat) (l : List Nat) (s : State) :
    segmentLoop env ctx (i :: l) s =
      (match segmentBody env ctx i s with
       | (.ok _, s1) => segmentLoop env ctx l s1
       | (.error e, s1) => (.error e, s1)) := by
  rw [segmentLoop, bind_apply]
  rcases segmentBody env ctx i s with ⟨r, s1⟩
  cases r <;> rfl

theorem segmentLoop_frame (env : Env) (ctx : LoopCtx) (l : List Nat) : ∀ s : State,
    SameEngine s (segmentLoop env ctx l s).2 ∧
    ((segmentLoop env ctx l s).1 = .ok () → ∀ x ∈ (segmentLoop env ctx l s).2.fs, x ∈ s.fs) := by
  induction l with
  | nil => intro s; exact ⟨SameEngine.refl s, fun _ x hx => hx⟩
  | cons i l ih =>
    intro s
    have hb := segmentBody_frame env ctx i s
    rw [segmentLoop_cons]
    rcases hr : segmentBody env ctx i s with ⟨r, s1⟩
    rw [hr] at hb
    cases r with
    | error e => exact ⟨hb.2.1, fun h => by simp at h⟩
    | ok u =>
      have hl := ih s1
      refine ⟨SameEngine.trans hb.2.1 hl.1, fun h x hx => ?_⟩
      exact hb.2.2 rfl x (hl.2 h x hx)

theorem segmentLoop_ok (env : Env) (ctx : LoopCtx) (l : List Nat) : ∀ s : State,
    (∀ i ∈ l, SegmentOk env ctx i) →
    (segmentLoop env ctx l s).1 = .ok () ∧
    (segmentLoop env ctx l s).2.folder = folderWithSegments ctx.originalName l s.folder ∧
    (segmentLoop env ctx l s).2.alerts = s.alerts ++ l.map (progressNotice ctx) ∧
    (segmentLoop env ctx l s).2.trace.filterMap Event.windowArguments
      = s.trace.filterMap Event.windowArguments
        ++ (l.map (fun i => (startTime i ctx.splitDurationSeconds,
              ctx.splitDurationSeconds))).filterMap formattedWindow := by
  induction l with
  | nil => intro s _; simp [segmentLoop_nil, folderWithSegments]
  | cons i l ih =>
    intro s h
    have hb := segmentBody_ok env ctx i s (h i (by simp))
    have hf := segmentBody_frame env ctx i s
    rw [segmentLoop_cons]
    rcases hr : segmentBody env ctx i s with ⟨r, s1⟩
    rw [hr] at hb hf
    obtain ⟨hb1, hb2, hb3⟩ := hb
    simp only at hb1 hb2 hb3 hf
    subst hb1
    have hl := ih s1 (fun j hj => h j (by simp [hj]))
    refine ⟨hl.1, ?_, ?_, ?_⟩
    · rw [hl.2.1, hb2]; rfl
    · rw [hl.2.2.1, hf.1]; simp
    · rw [hl.2.2.2, hb3, List.map_cons, List.filterMap_cons]
      cases formattedWindow (startTime i ctx.splitDurationSeconds, ctx.splitDurationSeconds)
        <;> simp

theorem segmentLoop_fail (env : Env) (ctx : LoopCtx) (l1 l2 : List Nat) (i : Nat) (st : Step)
    (e : JsError) (hfail : FailsAt env ctx i st e) : ∀ s : State,
    (∀ j ∈ l1, SegmentOk env ctx j) →
    (segmentLoop env ctx (l1 ++ i :: l2) s).1 = .error e ∧
    (segmentLoop env ctx (l1 ++ i :: l2) s).2.folder
      = folderAfterFailure ctx.originalName i
          (folderWithSegments ctx.originalName l1 s.folder) st ∧
    (segmentLoop env ctx (l1 ++ i :: l2) s).2.alerts
      = s.alerts ++ (l1 ++ [i]).map (progressNotice ctx) := by
  induction l1 with
  | nil =>
    intro s _
    have hb := segmentBody_fail env ctx i s st e hfail
    have hf := segmentBody_frame env ctx i s
    rw [List.nil_append, segmentLoop_cons]
    rcases hr : segmentBody env ctx i s with ⟨r, s1⟩
    rw [hr] at hb hf
    obtain ⟨hb1, hb2⟩ := hb
    simp only at hb1 hb2 hf
    subst hb1
    exact ⟨rfl, by simpa [folderWithSegments] using hb2, by simpa using hf.1⟩
  | cons j l1 ih =>
    intro s h
    have hb := segmentBody_ok env ctx j s (h j (by simp))
    have hf := segmentBody_frame env ctx j s
    rw [List.cons_append, segmentLoop_cons]
    rcases hr : segmentBody env ctx j s with ⟨r, s1⟩
    rw [hr] at hb hf
    obtain ⟨hb1, hb2, _⟩ := hb
    simp only at hb1 hb2 hf
    subst hb1
    have hl := ih s1 (fun k hk => h k (by simp [hk]))
    refine ⟨hl.1, ?_, ?_⟩
    · rw [hl.2.1, hb2]; rfl
    · rw [hl.2.2, hf.1]; simp

/-! ## The folder after several segments -/

theorem mem_folderWithSegments_of_ne (name : String) (e : FolderEntry) (l : List Nat) :
    ∀ folder : List FolderEntry, (∀ i ∈ l, e.name ≠ finalOutputName i name) →
    (e ∈ folderWithSegments name l folder ↔ e ∈ folder) := by
  induction l with
  | nil => intro folder _; rfl
  | cons j l ih =>
    intro folder h
    show e ∈ folderWithSegments name l (folderWithSegment name j folder) ↔ _
    rw [ih _ (fun i hi => h i (by simp [hi])),
      mem_folderWithSegment_of_ne _ _ _ _ (h j (by simp))]

theorem mem_folderWithSegments (name : String) (i : Nat) (l : List Nat) :
    ∀ folder : List FolderEntry, i ∈ l →
    ⟨finalOutputName i name, some (internalOutputName i)⟩ ∈ folderWithSegments name l folder := by
  induction l with
  | nil => intro folder h; simp at h
  | cons j l ih =>
    intro folder h
    show _ ∈ folderWithSegments name l (folderWithSegment name j folder)
    by_cases hl : i ∈ l
    · exact ih _ hl
    · have hij : i = j := by simpa [hl] using h
      subst hij
      rw [mem_folderWithSegments_of_ne]
      · exact mem_folderWithSegment name i folder
      · intro k hk heq
        have := finalOutputName_injective _ _ _ heq
        subst this
        exact hl hk

theorem range_split (n j : Nat) (h : j < n) :
    ∃ rest, List.range n = List.range j ++ j :: rest := by
  induction n with
  | zero => omega
  | succ n ih =>
    rcases Nat.lt_or_ge j n with hj | hj
    · obtain ⟨rest, hr⟩ := ih hj
      exact ⟨rest ++ [n], by rw [List.range_succ, hr]; simp⟩
    · have : j = n := by omega
      subst this
      exact ⟨[], List.range_succ _⟩

/-! ## `initializeFFmpeg` and the steps before the loop -/

theorem initializeFFmpeg_loaded (env : Env) (s : State) (h : s.isFFmpegLoaded = true) :
    initializeFFmpeg env s = (.ok (), s) := by
  simp [initializeFFmpeg, h]

theorem initializeFFmpeg_ok (env : Env) (s : State)
    (h : (initializeFFmpeg env s).1 = .ok ()) :
    (initializeFFmpeg env s).2.isFFmpegLoaded = true := by
  by_cases hl : s.isFFmpegLoaded = true
  · rw [initializeFFmpeg_loaded env s hl]; exact hl
  unfold initializeFFmpeg at h ⊢
  rcases h1 : env.coreURL with e | a
  · simp [hl, h1] at h
  rcases h2 : env.wasmURL with e | a
  · simp [hl, h1, h2] at h
  rcases h3 : env.load.result with e | a
  · simp [hl, h1, h2, h3] at h
  · simp [hl, h1, h2, h3]

theorem initializeAll_loaded (envs : List Env) : ∀ s : State, s.isFFmpegLoaded = true →
    initializeAll envs s = s := by
  induction envs with
  | nil => intro s _; rfl
  | cons env envs ih =>
    intro s h
    show initializeAll envs (initializeFFmpeg env s).2 = s
    rw [initializeFFmpeg_loaded env s h]
    exact ih s h

/-- Whatever the world answers, the steps before the loop leave the folder, the notices
and the uploaded file alone and add at most the input to the virtual filesystem; when
they end without error the engine is loaded; when the engine was loaded before, it is
left alone. -/
theorem openJob_frame (env : Env) (file : String) (s : State) :
    (openJob env file s).2.folder = s.folder ∧
    (openJob env file s).2.alerts = s.alerts ∧
    (∀ x ∈ (openJob env file s).2.fs, x ∈ s.fs ∨ x = internalInputName file) ∧
    (∀ p, (openJob env file s).1 = .ok p → (openJob env file s).2.isFFmpegLoaded = true) ∧
    (s.isFFmpegLoaded = true → SameEngine s (openJob env file s).2) ∧
    (openJob env file s).2.trace.filterMap Event.windowArguments
      = s.trace.filterMap Event.windowArguments := by
  unfold openJob initializeFFmpeg
  rcases h1 : env.showDirectoryPicker with e | a
  · simp [h1, SameEngine, Event.isInitialisation, State.record, Event.windowArguments]
    tauto
  by_cases hl : s.isFFmpegLoaded = true
  · rcases h5 : env.fetchFile with e | a
    · simp [h1, hl, h5, SameEngine, Event.isInitialisation, State.record, Event.windowArguments]
      tauto
    rcases h6 : env.writeFile.result with e | a
    · simp [h1, hl, h5, h6, SameEngine, Event.isInitialisation, State.record, Event.windowArguments]
      tauto
    rcases h7 : env.ffprobe.result with e | a
    · simp [h1, hl, h5, h6, h7, SameEngine, Event.isInitialisation, State.record, Event.windowArguments, mem_fsAdd]
      tauto
    · simp [h1, hl, h5, h6, h7, SameEngine, Event.isInitialisation, State.record, Event.windowArguments, mem_fsAdd]
      tauto
  · rcases h2 : env.coreURL with e | a
    · simp [h1, hl, h2, State.record, Event.windowArguments]
    rcases h3 : env.wasmURL with e | a
    · simp [h1, hl, h2, h3, State.record, Event.windowArguments]
    rcases h4 : env.load.result with e | a
    · simp [h1, hl, h2, h3, h4, State.record, Event.windowArguments]
    rcases h5 : env.fetchFile with e | a
    · simp [h1, hl, h2, h3, h4, h5, State.record, Event.windowArguments]
    rcases h6 : env.writeFile.result with e | a
    · simp [h1, hl, h2, h3, h4, h5, h6, State.record, Event.windowArguments]
    rcases h7 : env.ffprobe.result with e | a
    · simp [h1, hl, h2, h3, h4, h5, h6, h7, State.record, Event.windowArguments, mem_fsAdd]
    · simp [h1, hl, h2, h3, h4, h5, h6, h7, State.record, Event.windowArguments, mem_fsAdd]

theorem openJob_ok (env : Env) (file folderName : String) (d : ℚ) (s : State)
    (h : Opens env s folderName d) : (openJob env file s).1 = .ok (folderName, some d) := by
  obtain ⟨h1, h2, h5, h6, h7⟩ := h
  unfold openJob initializeFFmpeg
  rcases h2 with hl | ⟨h2, h3, h4⟩
  · simp [h1, hl, h5, h6, h7, State.record]
  · by_cases hl : s.isFFmpegLoaded = true
    · simp [h1, hl, h5, h6, h7, State.record]
    · simp [h1, hl, h2, h3, h4, h5, h6, h7, State.record]

/-! ## The loop inside the job -/

theorem runSegments_frame (fuel : Nat) (env : Env) (ctx : LoopCtx) (s : State) :
    SameEngine s (runSegments fuel env ctx s).2 ∧
    ((runSegments fuel env ctx s).1 = .ok .completed →
      ∀ x ∈ (runSegments fuel env ctx s).2.fs, x ∈ s.fs ∧ x ≠ ctx.internalInputName) := by
  have hf := segmentLoop_frame env ctx (loopIndices fuel ctx.numSegments)
    { s with alerts := s.alerts ++ [announceNotice ctx.numSegments] }
  unfold runSegments
  simp only [bind_apply, alert_apply]
  rcases hl : segmentLoop env ctx (loopIndices fuel ctx.numSegments)
    { s with alerts := s.alerts ++ [announceNotice ctx.numSegments] } with ⟨r, s1⟩
  rw [hl] at hf
  obtain ⟨hf1, hf2⟩ := hf
  have hs : SameEngine s s1 := hf1
  cases r with
  | error e => exact ⟨hs, fun h => by simp at h⟩
  | ok u =>
    by_cases hp : ctx.numSegments.bounded = true
    · rcases hd : env.deleteInput.result with e | a
      · simp [hp, hd, State.record]
        simpa [SameEngine, Event.isInitialisation] using hs
      · simp only [hp, hd, if_true, bind_apply, engineCall_apply, alert_apply, pure_apply,
          State.record]
        refine ⟨by simpa [SameEngine, Event.isInitialisation] using hs, fun _ x hx => ?_⟩
        simp only [mem_fsRemove] at hx
        exact ⟨hf2 rfl x hx.1, hx.2⟩
    · simp [hp] at hf2 ⊢
      exact hs

theorem runSegments_fail (fuel : Nat) (env : Env) (ctx : LoopCtx) (s : State)
    (k : Nat) (st : Step) (e : JsError) (hk : k < loopCount fuel ctx.numSegments)
    (hok : ∀ j, j < k → SegmentOk env ctx j) (hfail : FailsAt env ctx k st e) :
    (runSegments fuel env ctx s).1 = .error e ∧
    (runSegments fuel env ctx s).2.folder
      = folderAfterFailure ctx.originalName k
          (folderWithSegments ctx.originalName (List.range k) s.folder) st ∧
    (runSegments fuel env ctx s).2.alerts
      = s.alerts ++ announceNotice ctx.numSegments
          :: (List.range (k + 1)).map (progressNotice ctx) := by
  obtain ⟨rest, hr⟩ := range_split (loopCount fuel ctx.numSegments) k hk
  have hl := segmentLoop_fail env ctx (List.range k) rest k st e hfail
    { s with alerts := s.alerts ++ [announceNotice ctx.numSegments] }
    (fun j hj => hok j (List.mem_range.mp hj))
  have hi : loopIndices fuel ctx.numSegments = List.range k ++ k :: rest := hr
  unfold runSegments
  simp only [bind_apply, alert_apply]
  rw [hi]
  rcases hloop : segmentLoop env ctx (List.range k ++ k :: rest)
    { s with alerts := s.alerts ++ [announceNotice ctx.numSegments] } with ⟨r, s1⟩
  rw [hloop] at hl
  obtain ⟨hl1, hl2, hl3⟩ := hl
  simp only at hl1 hl2 hl3
  subst hl1
  refine ⟨rfl, hl2, ?_⟩
  show s1.alerts = _
  rw [hl3, List.range_succ]
  simp

theorem tryBlock_eq (fuel : Nat) (env : Env) (m : ℚ) (file : String) (s : State) :
    tryBlock fuel env m file s =
      (match openJob env file s with
       | (.ok p, s1) => afterProbe fuel env m file p.1 p.2 s1
       | (.error e, s1) => (.error e, s1)) := by
  unfold tryBlock
  rw [bind_apply]
  rcases openJob env file s with ⟨r, s1⟩
  cases r <;> rfl

theorem afterProbe_frame (fuel : Nat) (env : Env) (m : ℚ) (file folderName : String)
    (d : Option ℚ) (s : State) :
    SameEngine s (afterProbe fuel env m file folderName d s).2 ∧
    ((afterProbe fuel env m file folderName d s).1 = .ok .completed →
      ∀ x ∈ (afterProbe fuel env m file folderName d s).2.fs,
        x ∈ s.fs ∧ x ≠ internalInputName file) := by
  cases d with
  | none => simp [afterProbe, SameEngine]
  | some d =>
    by_cases hd : d = 0
    · simp [afterProbe, hd, SameEngine]
    · simp only [afterProbe, hd, if_false]
      exact runSegments_frame fuel env (loopCtx m file folderName d) s

theorem tryBlock_frame (fuel : Nat) (env : Env) (m : ℚ) (file : String) (s : State) :
    ((tryBlock fuel env m file s).1 = .ok .completed →
      (tryBlock fuel env m file s).2.isFFmpegLoaded = true ∧
      ∀ x ∈ (tryBlock fuel env m file s).2.fs, x ∈ s.fs ∧ x ≠ internalInputName file) ∧
    (s.isFFmpegLoaded = true → SameEngine s (tryBlock fuel env m file s).2) := by
  have ho := openJob_frame env file s
  rw [tryBlock_eq]
  rcases hr : openJob env file s with ⟨r, s1⟩
  rw [hr] at ho
  obtain ⟨_, _, ho3, ho4, ho5, _⟩ := ho
  cases r with
  | error e => exact ⟨fun h => by simp at h, ho5⟩
  | ok p =>
    have ha := afterProbe_frame fuel env m file p.1 p.2 s1
    refine ⟨fun h => ⟨?_, fun x hx => ?_⟩, fun h => SameEngine.trans (ho5 h) ha.1⟩
    · have h1 : s1.isFFmpegLoaded = true := ho4 p rfl
      rw [← h1]
      exact ha.1.2.1
    · obtain ⟨hx1, hx2⟩ := ha.2 h x hx
      rcases ho3 x hx1 with h3 | h3
      · exact ⟨h3, hx2⟩
      · exact absurd h3 hx2

/-! ## The whole job -/

theorem splitVideo_of_error (fuel : Nat) (env : Env) (m : ℚ) (s : State) (file : String)
    (e : JsError) (hfile : s.uploadedFile = some file)
    (h : (tryBlock fuel env m file s.clearLogs).1 = .error e) :
    (splitVideo fuel env m s).1 = (if e.name = "AbortError" then .cancelled else .failed) ∧
    (splitVideo fuel env m s).2.folder
      = (tryBlock fuel env m file s.clearLogs).2.folder ∧
    (splitVideo fuel env m s).2.alerts
      = (tryBlock fuel env m file s.clearLogs).2.alerts
          ++ (if e.name = "AbortError" then []
              else [failureNotice e (splitVideo fuel env m s).2.ffmpegLogs]) := by
  unfold splitVideo
  simp only [hfile, h]
  by_cases hn : e.name = "AbortError"
  · simp [hn]
  · simp [hn]

theorem tryBlock_of_completed (fuel : Nat) (env : Env) (m : ℚ) (s : State) (file : String)
    (hfile : s.uploadedFile = some file) (h : (splitVideo fuel env m s).1 = .completed) :
    (tryBlock fuel env m file s.clearLogs).1 = .ok .completed ∧
    (splitVideo fuel env m s).2 = (tryBlock fuel env m file s.clearLogs).2 := by
  unfold splitVideo at h ⊢
  simp only [hfile] at h ⊢
  rcases hr : (tryBlock fuel env m file s.clearLogs).1 with e | x
  · rw [hr] at h
    by_cases hn : e.name = "AbortError"
    · simp [hn] at h
    · simp [hn] at h
  · cases x
    · rw [hr] at h; simp at h
    · simp
    · rw [hr] at h; simp at h

theorem splitVideo_sameEngine (fuel : Nat) (env : Env) (m : ℚ) (s : State)
    (h : s.isFFmpegLoaded = true) : SameEngine s (splitVideo fuel env m s).2 := by
  unfold splitVideo
  cases hfile : s.uploadedFile with
  | none => simp [SameEngine]
  | some file =>
    have hs : SameEngine s (tryBlock fuel env m file s.clearLogs).2 :=
      (tryBlock_frame fuel env m file s.clearLogs).2 h
    simp only
    rcases hr : (tryBlock fuel env m file s.clearLogs).1 with e | x
    · by_cases hn : e.name = "AbortError"
      · simp only [hn, if_true]; exact hs
      · simp only [hn, if_false]; exact hs
    · cases x <;> exact hs

/-! ## The folder after a failure -/

theorem mem_folderTouch_of_mem (e : FolderEntry) (name : String) (folder : List FolderEntry)
    (h : e ∈ folder) : e ∈ folderTouch name folder := by
  unfold folderTouch
  split
  · exact h
  · exact List.mem_append_left _ h

theorem mem_folderAfterFailure_of_ne (name : String) (i : Nat) (folder : List FolderEntry)
    (st : Step) (e : FolderEntry) (h : e.name ≠ finalOutputName i name) :
    e ∈ folderAfterFailure name i folder st ↔ e ∈ folder := by
  cases st
  case exec => rfl
  case readFile => rfl
  case getFileHandle => rfl
  case createWritable => exact mem_folderTouch_of_ne _ _ _ h
  case write => exact mem_folderTouch_of_ne _ _ _ h
  case close => exact mem_folderTouch_of_ne _ _ _ h
  case deleteFile => exact mem_folderWithSegment_of_ne _ _ _ _ h

theorem folderWithSegments_fresh (name : String) (q : Nat) (folder : List FolderEntry)
    (hfresh : ∀ j, ∀ entry ∈ folder, entry.name ≠ finalOutputName j name) (j : Nat)
    (hj : q ≤ j) :
    ∀ entry ∈ folderWithSegments name (List.range q) folder,
      entry.name ≠ finalOutputName j name := by
  intro entry he hname
  rw [mem_folderWithSegments_of_ne] at he
  · exact hfresh j entry he hname
  · intro i hi heq
    rw [hname] at heq
    have := finalOutputName_injective _ _ _ heq
    have := List.mem_range.mp hi
    omega

/-! ## Rounding to binary64 -/

/-- The leading binary digit: `2 ^ l ≤ n < 2 ^ (l + 1)`. -/
theorem leadingBit_spec (fuel : Nat) : ∀ n, 0 < n → n ≤ fuel →
    2 ^ leadingBit fuel n ≤ n ∧ n < 2 ^ (leadingBit fuel n + 1) := by
  induction fuel with
  | zero => intro n h1 h2; omega
  | succ f ih =>
    intro n h1 h2
    unfold leadingBit
    by_cases h : 2 ≤ n
    · rw [if_pos h]
      obtain ⟨a, b⟩ := ih (n / 2) (by omega) (by omega)
      simp only [Nat.pow_succ] at b ⊢
      generalize 2 ^ leadingBit f (n / 2) = p at a b ⊢
      constructor <;> omega
    · rw [if_neg h]
      have : n = 1 := by omega
      subst this
      simp

/-- The binary exponent of a positive number is not above the number. -/
theorem binaryExponent_le (q : ℚ) (hq : 0 < q) : (2 : ℚ) ^ binaryExponent q ≤ q := by
  unfold binaryExponent
  simp only
  rw [abs_of_pos hq]
  split
  · assumption
  · have hn : 0 < q.num := Rat.num_pos.mpr hq
    have hn' : 0 < q.num.natAbs := Int.natAbs_pos.mpr (ne_of_gt hn)
    obtain ⟨a, -⟩ := leadingBit_spec q.num.natAbs q.num.natAbs hn' (le_refl _)
    obtain ⟨-, b⟩ := leadingBit_spec q.den q.den q.den_pos (le_refl _)
    have h2 : (2 : ℚ) ≠ 0 := by norm_num
    rw [zpow_sub₀ h2, zpow_sub₀ h2, zpow_natCast, zpow_natCast, zpow_one]
    have hqe : (q.num.natAbs : ℚ) / (q.den : ℚ) = q := by
      rw [Nat.cast_natAbs, abs_of_pos hn]
      exact Rat.num_div_den q
    have ha : ((2 : ℚ) ^ leadingBit q.num.natAbs q.num.natAbs) ≤ (q.num.natAbs : ℚ) := by
      exact_mod_cast a
    have hb : (q.den : ℚ) ≤ (2 : ℚ) ^ (leadingBit q.den q.den + 1) := by
      exact_mod_cast le_of_lt b
    have hd : (0 : ℚ) < q.den := by exact_mod_cast q.den_pos
    have hp : (0:ℚ) < 2 ^ (leadingBit q.den q.den + 1) := by positivity
    have hfin : (2 : ℚ) ^ leadingBit q.num.natAbs q.num.natAbs
        / 2 ^ (leadingBit q.den q.den + 1) ≤ (q.num.natAbs : ℚ) / (q.den : ℚ) := by
      rw [div_le_div_iff₀ hp hd]
      calc (2 : ℚ) ^ leadingBit q.num.natAbs q.num.natAbs * (q.den : ℚ)
          ≤ (q.num.natAbs : ℚ) * (q.den : ℚ) := by
            exact mul_le_mul_of_nonneg_right ha (le_of_lt hd)
        _ ≤ (q.num.natAbs : ℚ) * 2 ^ (leadingBit q.den q.den + 1) := by
            exact mul_le_mul_of_nonneg_left hb (by positivity)
    rw [div_div, ← pow_succ]
    exact le_of_le_of_eq hfin hqe

/-- Rounding to the nearest integer does not pass an integer below. -/
theorem roundHalfEven_ge (y : ℚ) (M : Int) (h : (M : ℚ) ≤ y) : M ≤ roundHalfEven y := by
  have hf : M ≤ ⌊y⌋ := Int.le_floor.mpr h
  unfold roundHalfEven
  split
  · exact hf
  · split
    · omega
    · split <;> omega

/-- Rounding to the nearest integer does not pass an integer above. -/
theorem roundHalfEven_le (y : ℚ) (M : Int) (h : y ≤ (M : ℚ)) : roundHalfEven y ≤ M := by
  have hf : ⌊y⌋ ≤ M := by
    have : ((⌊y⌋ : Int) : ℚ) ≤ M := le_trans (Int.floor_le y) h
    exact_mod_cast this
  rcases eq_or_lt_of_le hf with heq | hlt
  · -- floor y = M, so y = M
    have hy : y = M := le_antisymm h (by rw [← heq]; exact Int.floor_le y)
    unfold roundHalfEven
    have : y - (⌊y⌋ : ℚ) < 1 / 2 := by rw [heq, hy]; norm_num
    rw [if_pos this]
    exact hf
  · unfold roundHalfEven
    split
    · exact hf
    · split
      · omega
      · split <;> omega

/-- Rounding to the nearest integer moves by at most one half. -/
theorem roundHalfEven_err (y : ℚ) : |(roundHalfEven y : ℚ) - y| ≤ 1 / 2 := by
  have h1 := Int.floor_le y
  have h2 := Int.lt_floor_add_one y
  unfold roundHalfEven
  rw [abs_le]
  split
  · constructor <;> linarith
  · split
    · push_cast; constructor <;> linarith
    · split
      · constructor <;> linarith
      · push_cast; constructor <;> linarith

/-- Below `2 ^ 53` the binary64 values are spaced by the inverse of a power of two. -/
theorem unitInLastPlace_inv (q : ℚ) (hq : 0 < q) (h53 : q < 2 ^ 53) :
    ∃ J : ℕ, unitInLastPlace q = ((2 : ℚ) ^ J)⁻¹ := by
  have he : binaryExponent q < 53 := by
    have h := binaryExponent_le q hq
    have h3 : (2 : ℚ) ^ binaryExponent q < (2 : ℚ) ^ (53 : ℤ) :=
      lt_of_le_of_lt h (by exact_mod_cast h53)
    exact (zpow_lt_zpow_iff_right₀ (by norm_num)).mp h3
  refine ⟨(-(max (binaryExponent q) (-1022) - 52)).toNat, ?_⟩
  unfold unitInLastPlace
  rw [← zpow_natCast, ← zpow_neg, Int.toNat_of_nonneg (by omega), neg_neg]

/-- Below `2 ^ 53` rounding does not pass an integer below. -/
theorem nearestMultiple_ge (q : ℚ) (hq : 0 < q) (h53 : q < 2 ^ 53) (N : Int)
    (h : (N : ℚ) ≤ q) : (N : ℚ) ≤ nearestMultiple q := by
  obtain ⟨J, hJ⟩ := unitInLastPlace_inv q hq h53
  unfold nearestMultiple
  rw [hJ]
  have hp : (0 : ℚ) < 2 ^ J := by positivity
  have h1 : (N * 2 ^ J : Int) ≤ roundHalfEven (q / ((2 : ℚ) ^ J)⁻¹) :=
    roundHalfEven_ge _ _ (by
      push_cast
      rw [div_inv_eq_mul]
      exact mul_le_mul_of_nonneg_right h (le_of_lt hp))
  have h2 : ((N * 2 ^ J : Int) : ℚ) ≤ (roundHalfEven (q / ((2 : ℚ) ^ J)⁻¹) : ℚ) := by
    exact_mod_cast h1
  push_cast at h2
  rw [← div_eq_mul_inv, le_div_iff₀ hp]
  exact h2

/-- Below `2 ^ 53` rounding does not pass an integer above. -/
theorem nearestMultiple_le (q : ℚ) (hq : 0 < q) (h53 : q < 2 ^ 53) (N : Int)
    (h : q ≤ (N : ℚ)) : nearestMultiple q ≤ (N : ℚ) := by
  obtain ⟨J, hJ⟩ := unitInLastPlace_inv q hq h53
  unfold nearestMultiple
  rw [hJ]
  have hp : (0 : ℚ) < 2 ^ J := by positivity
  have h1 : roundHalfEven (q / ((2 : ℚ) ^ J)⁻¹) ≤ (N * 2 ^ J : Int) :=
    roundHalfEven_le _ _ (by
      push_cast
      rw [div_inv_eq_mul]
      exact mul_le_mul_of_nonneg_right h (le_of_lt hp))
  have h2 : (roundHalfEven (q / ((2 : ℚ) ^ J)⁻¹) : ℚ) ≤ ((N * 2 ^ J : Int) : ℚ) := by
    exact_mod_cast h1
  push_cast at h2
  rw [← div_eq_mul_inv, div_le_iff₀ hp]
  exact h2

/-- Below `2 ^ 53` rounding gives a finite value. -/
theorem roundDouble_eq (q : ℚ) (hq : 0 < q) (h53 : q < 2 ^ 53) :
    roundDouble q = .fin (nearestMultiple q) := by
  have h0 := nearestMultiple_ge q hq h53 0 (by exact_mod_cast le_of_lt hq)
  have h1 := nearestMultiple_le q hq h53 (2 ^ 53) (by exact_mod_cast le_of_lt h53)
  push_cast at h0 h1
  unfold roundDouble
  rw [if_neg (ne_of_gt hq), if_neg, if_neg, if_neg]
  · intro h
    exact absurd h.1 (not_lt.mpr (le_of_lt hq))
  · intro h
    have : (0 : ℚ) < 2 ^ 1024 := by positivity
    linarith
  · intro h
    have : (2 : ℚ) ^ 53 < 2 ^ 1024 := by norm_num
    linarith

/-- An integer from 0 to `2 ^ 53` is a binary64 value. -/
theorem roundDouble_int (N : Int) (h0 : 0 ≤ N) (h53 : N ≤ 2 ^ 53) :
    roundDouble N = .fin N := by
  rcases eq_or_lt_of_le h0 with h | h
  · rw [← h]; simp [roundDouble]
  rcases eq_or_lt_of_le h53 with h2 | h2
  · rw [h2]; decide!
  have hq : (0 : ℚ) < N := by exact_mod_cast h
  have hq2 : (N : ℚ) < 2 ^ 53 := by exact_mod_cast h2
  rw [roundDouble_eq _ hq hq2]
  exact congrArg _ (le_antisymm (nearestMultiple_le _ hq hq2 N (le_refl _))
    (nearestMultiple_ge _ hq hq2 N (le_refl _)))

/-- The rounding of a number from 0 to `2 ^ 53` is finite, and no integer lies strictly
between the number and its rounding. -/
theorem roundDouble_sandwich (q : ℚ) (h0 : 0 ≤ q) (h53 : q ≤ 2 ^ 53) :
    ∃ r : ℚ, roundDouble q = .fin r ∧
      (∀ N : Int, (N : ℚ) ≤ q → (N : ℚ) ≤ r) ∧ (∀ N : Int, q ≤ (N : ℚ) → r ≤ (N : ℚ)) := by
  rcases eq_or_lt_of_le h0 with h | h
  · exact ⟨0, by rw [← h]; simp [roundDouble], fun N hN => by rw [← h] at hN; exact hN,
      fun N hN => by rw [← h] at hN; exact hN⟩
  rcases eq_or_lt_of_le h53 with h2 | h2
  · refine ⟨q, ?_, fun N hN => hN, fun N hN => hN⟩
    rw [h2]
    have := roundDouble_int (2 ^ 53) (by norm_num) (le_refl _)
    exact_mod_cast this
  · exact ⟨nearestMultiple q, roundDouble_eq q h h2, nearestMultiple_ge q h h2,
      nearestMultiple_le q h h2⟩

/-- The relative error of rounding is at most `2 ^ (-53)` from `2 ^ (-1022)` on. -/
theorem nearestMultiple_err (q : ℚ) (hq : (2 : ℚ) ^ (-1022 : ℤ) ≤ q) :
    |nearestMultiple q - q| ≤ q / 2 ^ 53 := by
  have hq0 : 0 < q := lt_of_lt_of_le (by positivity) hq
  have hu : 0 < unitInLastPlace q := by unfold unitInLastPlace; positivity
  have hm : (2 : ℚ) ^ (max (binaryExponent q) (-1022)) ≤ q := by
    rcases max_cases (binaryExponent q) (-1022) with ⟨h, -⟩ | ⟨h, -⟩
    · rw [h]; exact binaryExponent_le q hq0
    · rw [h]; exact hq
  have hu2 : unitInLastPlace q / 2 ≤ q / 2 ^ 53 := by
    unfold unitInLastPlace
    rw [zpow_sub₀ (by norm_num)]
    have : (2 : ℚ) ^ (52 : ℤ) * 2 = 2 ^ 53 := by norm_num
    rw [div_div, this]
    exact div_le_div_of_nonneg_right hm (by positivity)
  have he := roundHalfEven_err (q / unitInLastPlace q)
  have hrw : nearestMultiple q - q
      = ((roundHalfEven (q / unitInLastPlace q) : ℚ) - q / unitInLastPlace q)
          * unitInLastPlace q := by
    unfold nearestMultiple
    field_simp
  rw [hrw, abs_mul, abs_of_pos hu]
  calc |(roundHalfEven (q / unitInLastPlace q) : ℚ) - q / unitInLastPlace q| * unitInLastPlace q
      ≤ 1 / 2 * unitInLastPlace q := mul_le_mul_of_nonneg_right he (le_of_lt hu)
    _ = unitInLastPlace q / 2 := by ring
    _ ≤ q / 2 ^ 53 := hu2

/-! ## The claims -/

/-- C1 as stated fails for `splitVideo(0.01)` on a video of 3 seconds: the segment
length is the binary64 value of `0.6`, which is below 0.6, so that `ceil(D / L)` is 6,
but the quotient of line 75 rounds to 5 and the loop plans 5 segments; and the start of
the segment of index 3 (line 79) is the rounded product, which is below `3 * L`. -/
theorem plan_differs_from_exact_ceil_and_starts :
    (loopCtx shortMinutes "clip.mov" "out" 3).splitDurationSeconds = .fin shortLength ∧
    (loopCtx shortMinutes "clip.mov" "out" 3).numSegments = .fin 5 ∧
    ⌈(3 : ℚ) / shortLength⌉ = 6 ∧
    (plannedWindows 0 3 (.fin shortLength)).length = 5 ∧
    (plannedWindows 0 3 (.fin shortLength))[3]?
      = some (.fin (2026619832316723 / 1125899906842624), .fin shortLength) ∧
    (2026619832316723 / 1125899906842624 : ℚ) < 3 * shortLength := by
  decide!

/-- C1 (amended): for a positive duration `D` and a positive segment length `L` with
`ceil(D / L) ≤ 2 ^ 53` the loop of `splitVideo` is set to run `ceil(fl(D / L))` times,
`fl` being the rounding to binary64; this count is `ceil(D / L)` or one less, and it is
`ceil(D / L)` when `D / L` is a binary64 value, and also when `D / L` is at least
`2 ^ (-1022)` and lies above `ceil(D / L) - 1` by more than `D / L / 2 ^ 53`.  The
window of index `i` starts at `fl(i * L)` and has length `L`; when `L` is a whole
number and the count times `L` is at most `2 ^ 53`, the start is `i * L` and the next
window starts at `i * L + L`, where this one ends.  A duration of 125 with length 60
gives the starts 0, 60, 120, and a duration of 60 with length 60 gives one window. -/
theorem plan_is_ceil_up_to_rounding (fuel : Nat) (D L : ℚ) (hD : 0 < D) (hL : 0 < L)
    (hN : ⌈D / L⌉ ≤ 2 ^ 53) :
    numSegments D (.fin L) = jsCeil (roundDouble (D / L)) ∧
    (numSegments D (.fin L) = .fin ⌈D / L⌉ ∨ numSegments D (.fin L) = .fin (⌈D / L⌉ - 1)) ∧
    (roundDouble (D / L) = .fin (D / L) → numSegments D (.fin L) = .fin ⌈D / L⌉) ∧
    ((2 : ℚ) ^ (-1022 : ℤ) ≤ D / L → D / L / 2 ^ 53 < D / L - (⌈D / L⌉ - 1) →
      numSegments D (.fin L) = .fin ⌈D / L⌉) ∧
    numSegments D (.fin L) = .fin (plannedWindows fuel D (.fin L)).length ∧
    (∀ i, i < (plannedWindows fuel D (.fin L)).length →
      (plannedWindows fuel D (.fin L))[i]? = some (roundDouble (i * L), .fin L)) ∧
    (∀ m : Nat, L = m → (plannedWindows fuel D (.fin L)).length * m ≤ 2 ^ 53 →
      ∀ i, i < (plannedWindows fuel D (.fin L)).length →
        (plannedWindows fuel D (.fin L))[i]? = some (.fin (i * L), .fin L) ∧
        (i + 1 < (plannedWindows fuel D (.fin L)).length →
          (plannedWindows fuel D (.fin L))[i + 1]? = some (.fin (i * L + L), .fin L))) ∧
    (plannedWindows fuel 125 (.fin 60)).map Prod.fst = [.fin 0, .fin 60, .fin 120] ∧
    (plannedWindows fuel 60 (.fin 60)).length = 1 := by
  have hL0 : L ≠ 0 := ne_of_gt hL
  have hq : 0 < D / L := div_pos hD hL
  have hq53 : D / L ≤ 2 ^ 53 := le_trans (Int.le_ceil _) (by exact_mod_cast hN)
  obtain ⟨r, hr, hge, hle⟩ := roundDouble_sandwich (D / L) (le_of_lt hq) hq53
  have hdef : numSegments D (.fin L) = jsCeil (roundDouble (D / L)) := by
    simp [numSegments, jsDiv, hL0, ne_of_gt hD]
  have hns : numSegments D (.fin L) = .fin ⌈r⌉ := by rw [hdef, hr]; rfl
  have hup : ⌈r⌉ ≤ ⌈D / L⌉ := Int.ceil_le.mpr (hle _ (Int.le_ceil _))
  have hlo : ⌈D / L⌉ - 1 ≤ ⌈r⌉ := by
    have h1 : ((⌈D / L⌉ - 1 : Int) : ℚ) ≤ D / L := by
      push_cast
      linarith [Int.ceil_lt_add_one (D / L)]
    have h3 : ((⌈D / L⌉ - 1 : Int) : ℚ) ≤ (⌈r⌉ : ℚ) := le_trans (hge _ h1) (Int.le_ceil r)
    exact_mod_cast h3
  have hr0 : 0 ≤ ⌈r⌉ := Int.ceil_nonneg (by simpa using hge 0 (by simpa using le_of_lt hq))
  have hcount : loopCount fuel (numSegments D (.fin L)) = ⌈r⌉.toNat := by
    rw [hns]
    show (if ⌈r⌉ ≤ 2 ^ 53 then ⌈r⌉.toNat else min fuel (2 ^ 53)) = ⌈r⌉.toNat
    rw [if_pos (le_trans hup hN)]
  have hlen : (plannedWindows fuel D (.fin L)).length = ⌈r⌉.toNat := by
    simp [plannedWindows, loopIndices, hcount]
  have hget : ∀ i, i < (plannedWindows fuel D (.fin L)).length →
      (plannedWindows fuel D (.fin L))[i]? = some (roundDouble (i * L), .fin L) := by
    intro i hi
    rw [hlen] at hi
    have hmul : jsMul (i : ℚ) (.fin L) = roundDouble (i * L) := by
      show (if (i : ℚ) * L = 0 then (if (i : ℚ) < 0 ∨ L < 0 then JsNumber.negZero
        else JsNumber.fin 0) else roundDouble (i * L)) = roundDouble (i * L)
      by_cases h0 : (i : ℚ) * L = 0
      · rw [if_pos h0, h0, if_neg (by
          intro h
          rcases h with h | h
          · exact absurd h (not_lt.mpr (Nat.cast_nonneg i))
          · exact absurd h (not_lt.mpr (le_of_lt hL)))]
        simp [roundDouble]
      · rw [if_neg h0]
    simp [plannedWindows, loopIndices, hcount, List.getElem?_range hi, startTime, hmul]
  have h125 : numSegments 125 (.fin 60) = .fin 3 := by decide!
  have h60 : numSegments 60 (.fin 60) = .fin 1 := by decide!
  refine ⟨hdef, ?_, ?_, ?_, ?_, hget, ?_, ?_, ?_⟩
  · rw [hns]
    rcases eq_or_lt_of_le hup with h | h
    · exact Or.inl (by rw [h])
    · exact Or.inr (by rw [show ⌈r⌉ = ⌈D / L⌉ - 1 by omega])
  · intro hex
    rw [hdef, hex]
    rfl
  · intro hmin hgap
    rw [hns]
    have hrq : (⌈D / L⌉ : ℚ) - 1 < r := by
      rcases eq_or_lt_of_le hq53 with h | h
      · have h2 : roundDouble (D / L) = .fin (D / L) := by
          rw [h]
          have := roundDouble_int (2 ^ 53) (by norm_num) (le_refl _)
          exact_mod_cast this
        rw [hr] at h2
        have : r = D / L := by injection h2
        rw [this]
        linarith [Int.ceil_lt_add_one (D / L)]
      · have h2 := roundDouble_eq (D / L) hq h
        rw [hr] at h2
        have h3 : r = nearestMultiple (D / L) := by injection h2
        have h4 := (abs_le.mp (nearestMultiple_err (D / L) hmin)).1
        rw [h3]
        linarith
    have : ⌈D / L⌉ - 1 < ⌈r⌉ := Int.lt_ceil.mpr (by push_cast; exact hrq)
    exact congrArg _ (by omega)
  · rw [hns, hlen]
    exact congrArg _ (Int.toNat_of_nonneg hr0).symm
  · intro m hm hbound i hi
    have hexact : ∀ j, j < (plannedWindows fuel D (.fin L)).length →
        roundDouble (j * L) = .fin (j * L) := by
      intro j hj
      have h1 : j * m ≤ 2 ^ 53 :=
        le_trans (Nat.mul_le_mul_right m (le_of_lt hj)) hbound
      have h2 := roundDouble_int ((j * m : Nat) : Int) (by positivity) (by exact_mod_cast h1)
      rw [hm]
      exact_mod_cast h2
    refine ⟨by rw [hget i hi, hexact i hi], fun hi1 => ?_⟩
    rw [hget (i + 1) hi1, hexact (i + 1) hi1]
    push_cast
    rw [add_mul, one_mul]
  · have hc : loopCount fuel (numSegments 125 (.fin 60)) = 3 := by rw [h125]; rfl
    have h0 : jsMul ((0 : Nat) : ℚ) (.fin 60) = .fin 0 := by decide!
    have h1 : jsMul ((1 : Nat) : ℚ) (.fin 60) = .fin 60 := by decide!
    have h2 : jsMul ((2 : Nat) : ℚ) (.fin 60) = .fin 120 := by decide!
    simp only [plannedWindows, loopIndices, hc, startTime, List.range_succ,
      List.range_zero, List.nil_append, List.cons_append, List.map_cons, List.map_nil]
    rw [h0, h1, h2]
  · have hc : loopCount fuel (numSegments 60 (.fin 60)) = 1 := by rw [h60]; rfl
    simp [plannedWindows, loopIndices, hc]

/-- C1 (amended), at a duration of 125 and a length of 60. -/
theorem plan_is_ceil_up_to_rounding_witness :
    (0 : ℚ) < 125 ∧ (0 : ℚ) < 60 ∧ ⌈(125 : ℚ) / 60⌉ ≤ 2 ^ 53 ∧
    numSegments 125 (.fin 60) = .fin (plannedWindows 0 125 (.fin 60)).length ∧
    (plannedWindows 0 125 (.fin 60)).map Prod.fst = [.fin 0, .fin 60, .fin 120] :=
  ⟨by norm_num, by norm_num, by decide!,
    (plan_is_ceil_up_to_rounding 0 125 60 (by norm_num) (by norm_num) (by decide!)).2.2.2.2.1,
    (plan_is_ceil_up_to_rounding 0 125 60 (by norm_num) (by norm_num)
      (by decide!)).2.2.2.2.2.2.2.1⟩

/-- C10: the name under which segment `i` (counted from 1) is saved is `part_`, the
decimal digits of `i`, `_` and the original name; it differs from the name of the input
inside the engine, `input.` and the text after the last `.` of the original name, and
from the name of every segment inside the engine, `part_`, the decimal digits of `j`
and `.mp4`. -/
theorem output_name_distinct_from_internal (originalName : String) (i j : Nat)
    (hi : 1 ≤ i) (hj : 1 ≤ j) :
    finalOutputName (i - 1) originalName = "part_" ++ Nat.repr i ++ "_" ++ originalName ∧
    internalInputName originalName = "input." ++ extensionOf originalName ∧
    internalOutputName (j - 1) = "part_" ++ Nat.repr j ++ ".mp4" ∧
    finalOutputName (i - 1) originalName ≠ internalInputName originalName ∧
    finalOutputName (i - 1) originalName ≠ internalOutputName (j - 1) := by
  have e1 : i - 1 + 1 = i := by omega
  have e2 : j - 1 + 1 = j := by omega
  exact ⟨by rw [finalOutputName, e1], rfl, by rw [internalOutputName, e2],
    finalOutputName_ne_internalInputName _ _, finalOutputName_ne_internalOutputName _ _ _⟩

/-- C10, for the first segment of `clip.mp4`: its saved name is neither `input.mp4`
nor `part_1.mp4`. -/
theorem output_name_distinct_from_internal_witness :
    finalOutputName 0 "clip.mp4" = "part_1_clip.mp4" ∧
    internalInputName "clip.mp4" = "input.mp4" ∧
    internalOutputName 0 = "part_1.mp4" ∧
    finalOutputName 0 "clip.mp4" ≠ internalInputName "clip.mp4" ∧
    finalOutputName 0 "clip.mp4" ≠ internalOutputName 0 :=
  output_name_distinct_from_internal "clip.mp4" 1 1 (by decide) (by decide)

/-- C8 as stated fails at one day: `formatDuration(86400)` is `00:00:00`, which no
reading as hours, minutes below 60 and seconds below 60 turns into 86400 seconds. -/
theorem formatDuration_wraps_after_one_day :
    formatDuration 86400 = .ok "00:00:00" ∧
    ¬ ∃ hh mm ss : Nat, mm < 60 ∧ ss < 60 ∧ formatDuration 86400 = .ok (clock hh mm ss) ∧
        ((hh * 3600 + mm * 60 + ss : Nat) : Int) = ⌊(86400 : ℚ)⌋ := by
  have h : formatDuration 86400 = .ok "00:00:00" := by decide!
  refine ⟨h, ?_⟩
  rintro ⟨hh, mm, ss, hm, hs, hf, hsum⟩
  have hfl : ⌊(86400 : ℚ)⌋ = 86400 := by
    have : ((86400 : ℤ) : ℚ) = 86400 := by norm_num
    rw [← this, Int.floor_intCast]
  rw [hfl] at hsum
  have h24 : hh = 24 := by omega
  have hm0 : mm = 0 := by omega
  have hs0 : ss = 0 := by omega
  subst h24 hm0 hs0
  rw [h] at hf
  exact absurd hf (by decide)

/-- C8 (amended): for a seconds value `s` with `0 ≤ s < 86400`, `formatDuration(s)` is
the 8-character string `HH:MM:SS` of three two-digit decimal fields with `HH < 24`,
`MM < 60`, `SS < 60` and `HH*3600 + MM*60 + SS = floor(s)`. -/
theorem formatDuration_is_clock_within_one_day (s : ℚ) (h0 : 0 ≤ s) (h1 : s < 86400) :
    ∃ hh mm ss : Nat, hh < 24 ∧ mm < 60 ∧ ss < 60 ∧
      formatDuration s = .ok (clock hh mm ss) ∧ (clock hh mm ss).length = 8 ∧
      ((hh * 3600 + mm * 60 + ss : Nat) : Int) = ⌊s⌋ := by
  have hn0 : 0 ≤ ⌊s⌋ := Int.floor_nonneg.mpr h0
  have hn1 : ⌊s⌋ < 86400 := by rw [Int.floor_lt]; push_cast; linarith
  refine ⟨⌊s⌋.toNat / 3600, ⌊s⌋.toNat / 60 % 60, ⌊s⌋.toNat % 60, by omega, by omega, by omega,
    formatDuration_eq s h0 h1, clock_length _ _ _, by omega⟩

/-- C8 (amended), at 3725.5 seconds. -/
theorem formatDuration_is_clock_within_one_day_witness :
    (0 : ℚ) ≤ 7451 / 2 ∧ (7451 / 2 : ℚ) < 86400 ∧
    ∃ hh mm ss : Nat, hh < 24 ∧ mm < 60 ∧ ss < 60 ∧
      formatDuration (7451 / 2) = .ok (clock hh mm ss) ∧ (clock hh mm ss).length = 8 ∧
      ((hh * 3600 + mm * 60 + ss : Nat) : Int) = ⌊(7451 / 2 : ℚ)⌋ :=
  ⟨by norm_num, by norm_num,
    formatDuration_is_clock_within_one_day (7451 / 2) (by norm_num) (by norm_num)⟩

/-- C9 as stated fails inside one second: 0.2 < 0.5, and both are formatted as
`00:00:00`. -/
theorem formatDuration_not_strict_within_a_second :
    (0 : ℚ) ≤ 1 / 5 ∧ (1 / 5 : ℚ) < 1 / 2 ∧ (1 / 2 : ℚ) < 86400 ∧
    ¬ ∃ sa sb : String, formatDuration (1 / 5) = .ok sa ∧ formatDuration (1 / 2) = .ok sb ∧
        sa < sb := by
  have ha : formatDuration (1 / 5) = .ok "00:00:00" := by decide!
  have hb : formatDuration (1 / 2) = .ok "00:00:00" := by decide!
  refine ⟨by norm_num, by norm_num, by norm_num, ?_⟩
  rintro ⟨sa, sb, h1, h2, hlt⟩
  rw [ha] at h1
  rw [hb] at h2
  injection h1 with h1
  injection h2 with h2
  subst h1 h2
  exact lt_irrefl _ hlt

/-- C9 (amended): for seconds values `0 ≤ a < b < 86400`, `formatDuration(a)` is at most
`formatDuration(b)` in lexicographic order, and strictly less when `a` and `b` lie in
different whole seconds (`floor(a) < floor(b)`). -/
theorem formatDuration_monotone_within_one_day (a b : ℚ) (ha : 0 ≤ a) (hab : a < b)
    (hb : b < 86400) :
    ∃ sa sb : String, formatDuration a = .ok sa ∧ formatDuration b = .ok sb ∧ sa ≤ sb ∧
      (⌊a⌋ < ⌊b⌋ → sa < sb) := by
  have hfa := formatDuration_eq a ha (by linarith)
  have hfb := formatDuration_eq b (by linarith) hb
  have hle : ⌊a⌋ ≤ ⌊b⌋ := Int.floor_mono (le_of_lt hab)
  have ha0 : 0 ≤ ⌊a⌋ := Int.floor_nonneg.mpr ha
  have hb1 : ⌊b⌋ < 86400 := by rw [Int.floor_lt]; push_cast; linarith
  have hstrict : ⌊a⌋ < ⌊b⌋ → clockOfSeconds ⌊a⌋.toNat < clockOfSeconds ⌊b⌋.toNat :=
    fun h => clockOfSeconds_lt _ _ (by omega) (by omega)
  refine ⟨_, _, hfa, hfb, ?_, hstrict⟩
  rcases lt_or_eq_of_le hle with h | h
  · exact le_of_lt (hstrict h)
  · rw [h]

/-- C9 (amended), at 59.9 and 60 seconds. -/
theorem formatDuration_monotone_within_one_day_witness :
    (0 : ℚ) ≤ 599 / 10 ∧ (599 / 10 : ℚ) < 60 ∧ (60 : ℚ) < 86400 ∧
    ∃ sa sb : String, formatDuration (599 / 10) = .ok sa ∧ formatDuration 60 = .ok sb ∧
      sa ≤ sb ∧ (⌊(599 / 10 : ℚ)⌋ < ⌊(60 : ℚ)⌋ → sa < sb) :=
  ⟨by norm_num, by norm_num, by norm_num,
    formatDuration_monotone_within_one_day (599 / 10) 60 (by norm_num) (by norm_num)
      (by norm_num)⟩

/-- C3: when a job ends in completion and the virtual filesystem held no segment
artifact `part_<i>.mp4` at its start, the virtual filesystem at its end holds neither
the input artifact `input.<ext>` nor any segment artifact. -/
theorem no_internal_artifact_after_success (fuel : Nat) (env : Env) (minutes : ℚ)
    (s : State) (file : String) (hfile : s.uploadedFile = some file)
    (hclean : ∀ i, internalOutputName i ∉ s.fs)
    (hdone : (splitVideo fuel env minutes s).1 = .completed) :
    internalInputName file ∉ (splitVideo fuel env minutes s).2.fs ∧
    ∀ i, internalOutputName i ∉ (splitVideo fuel env minutes s).2.fs := by
  obtain ⟨h1, h2⟩ := tryBlock_of_completed fuel env minutes s file hfile hdone
  have hf := ((tryBlock_frame fuel env minutes file s.clearLogs).1 h1).2
  rw [h2]
  refine ⟨fun h => (hf _ h).2 rfl, fun i h => hclean i ?_⟩
  exact (hf _ h).1

/-- C3, for the sample job, which completes. -/
theorem no_internal_artifact_after_success_witness :
    (splitVideo 0 sampleEnv 1 sampleState).1 = .completed ∧
    internalInputName "clip.mov" ∉ (splitVideo 0 sampleEnv 1 sampleState).2.fs ∧
    ∀ i, internalOutputName i ∉ (splitVideo 0 sampleEnv 1 sampleState).2.fs :=
  ⟨by decide!,
    no_internal_artifact_after_success 0 sampleEnv 1 sampleState "clip.mov" rfl
      (fun _ h => by simp [sampleState] at h) (by decide!)⟩

/-- C4, the code at two failing inputs: when the probe reports no duration, the job
returns at line 72 and `input.mov` stays in the virtual filesystem; when the read of
the first segment fails, the job ends in the handler and `input.mov` and `part_1.mp4`
stay. -/
theorem internal_artifacts_left_after_failure :
    (splitVideo 0 probeWithoutDuration 1 sampleState).1 = .durationUnknown ∧
    (splitVideo 0 probeWithoutDuration 1 sampleState).2.fs = ["input.mov"] ∧
    (splitVideo 0 readFails 1 sampleState).1 = .failed ∧
    (splitVideo 0 readFails 1 sampleState).2.fs = ["input.mov", "part_1.mp4"] := by
  decide!

/-- C5: when a file is uploaded and the folder picker is rejected with an error named
`AbortError`, `splitVideo` ends as cancelled; the only call it made is the picker, and
the state differs from the one before only in the emptied log buffer, the recorded
call and one console line: no notice, no engine, no write. -/
theorem cancelled_picker_has_no_effect (fuel : Nat) (env : Env) (minutes : ℚ) (s : State)
    (file : String) (e : JsError) (hfile : s.uploadedFile = some file)
    (hpick : env.showDirectoryPicker = .error e) (hname : e.name = "AbortError") :
    splitVideo fuel env minutes s =
      (.cancelled,
        { s with ffmpegLogs := []
                 trace := s.trace ++ [.showDirectoryPicker]
                 console := s.console ++ ["사용자가 폴더 선택을 취소했습니다."] }) := by
  simp [splitVideo, hfile, tryBlock, openJob, hpick, hname, State.record, State.clearLogs]

/-- C5, for the sample job with a dismissed picker. -/
theorem cancelled_picker_has_no_effect_witness :
    splitVideo 0 pickerCancelled 1 sampleState =
      (.cancelled,
        { sampleState with ffmpegLogs := []
                           trace := sampleState.trace ++ [.showDirectoryPicker]
                           console := sampleState.console
                             ++ ["사용자가 폴더 선택을 취소했습니다."] }) :=
  cancelled_picker_has_no_effect 0 pickerCancelled 1 sampleState "clip.mov"
    ⟨"AbortError", "The user aborted a request."⟩ rfl rfl rfl

/-- C6, the code at a failing input: the picker grants the folder, and `createWritable`
for the second segment is rejected with an error named `AbortError`.  The job ends in
the branch of line 115: the notices are the announcement and two progress notices, no
failure notice, and the console says that the folder selection was cancelled. -/
theorem abort_error_after_picker_is_swallowed :
    createWritableAborted.showDirectoryPicker = .ok "out" ∧
    createWritableAborted.createWritable 1
      = .error ⟨"AbortError", "The operation was aborted."⟩ ∧
    (splitVideo 0 createWritableAborted 1 sampleState).1 = .cancelled ∧
    (splitVideo 0 createWritableAborted 1 sampleState).2.outputFolderHandle = some "out" ∧
    (splitVideo 0 createWritableAborted 1 sampleState).2.alerts =
      ["총 3개의 파일로 분할을 시작합니다.\n안정적인 처리를 위해 시간이 다소 걸릴 수 있습니다.",
       "[1/3] 파일 분할 중...\n파일명: part_1_clip.mov",
       "[2/3] 파일 분할 중...\n파일명: part_2_clip.mov"] ∧
    (splitVideo 0 createWritableAborted 1 sampleState).2.console.getLast?
      = some "사용자가 폴더 선택을 취소했습니다." := by
  decide!

/-- C7: a call of `initializeFFmpeg` that ends without error leaves the flag set; once
the flag is set, every call of `initializeFFmpeg`, and every sequence of calls, returns
the state unchanged (no engine constructed, no observer registered, nothing loaded),
and a whole job constructs no engine and loads nothing; a completed job leaves the
flag set. -/
theorem engine_is_loaded_once (env : Env) (s : State) :
    ((initializeFFmpeg env s).1 = .ok () → (initializeFFmpeg env s).2.isFFmpegLoaded = true) ∧
    (s.isFFmpegLoaded = true →
      initializeFFmpeg env s = (.ok (), s) ∧
      (∀ envs : List Env, initializeAll envs s = s) ∧
      ∀ (fuel : Nat) (minutes : ℚ), SameEngine s (splitVideo fuel env minutes s).2) ∧
    (∀ (fuel : Nat) (minutes : ℚ), (splitVideo fuel env minutes s).1 = .completed →
      (splitVideo fuel env minutes s).2.isFFmpegLoaded = true) := by
  refine ⟨initializeFFmpeg_ok env s, fun h => ⟨initializeFFmpeg_loaded env s h,
    fun envs => initializeAll_loaded envs s h, fun fuel minutes =>
      splitVideo_sameEngine fuel env minutes s h⟩, fun fuel minutes hdone => ?_⟩
  cases hfile : s.uploadedFile with
  | none => simp [splitVideo, hfile] at hdone
  | some file =>
    obtain ⟨h1, h2⟩ := tryBlock_of_completed fuel env minutes s file hfile hdone
    rw [h2]
    exact ((tryBlock_frame fuel env minutes file s.clearLogs).1 h1).1

/-- C7, for a second sample job run after a first one: the trace of both jobs holds the
six initialisation calls of the first job and no more. -/
theorem engine_is_loaded_once_witness :
    (splitVideo 0 sampleEnv 1 (splitVideo 0 sampleEnv 1 sampleState).2).2.trace.countP
      Event.isInitialisation = 6 := by
  have hflag := (engine_is_loaded_once sampleEnv sampleState).2.2 0 1 (by decide!)
  have hsame := ((engine_is_loaded_once sampleEnv
    (splitVideo 0 sampleEnv 1 sampleState).2).2.1 hflag).2.2 0 1
  rw [hsame.2.2.2]
  decide!

/-- C2 as stated fails for the job of `deleteFails` (five planned segments, the delete
step of segment 2 fails): the saved file of segment 2 is in the folder, and the
failure notice is the error message and the log lines, without any digit. -/
theorem failed_segment_is_saved_and_notice_has_no_count :
    numSegments 300 (roundDouble (1 * 60)) = .fin 5 ∧
    (deleteFails.deleteOutput 1).result = .error ⟨"Error", "boom"⟩ ∧
    (splitVideo 0 deleteFails 1 sampleState).1 = .failed ∧
    ⟨"part_2_clip.mov", some "part_2.mp4"⟩ ∈ (splitVideo 0 deleteFails 1 sampleState).2.folder ∧
    (splitVideo 0 deleteFails 1 sampleState).2.alerts.getLast?
      = some "영상 분할 중 오류가 발생했습니다: boom\n\n[상세 정보]\nencoding\nencoding" ∧
    ∀ c ∈ "영상 분할 중 오류가 발생했습니다: boom\n\n[상세 정보]\nencoding\nencoding".data,
      c.isDigit = false := by
  decide!

/-- C2 (amended): in a job that reaches the loop with `n` planned segments, let the
segments before segment `k` (`1 ≤ k ≤ n`) succeed and let segment `k` fail in the step
`st` with an error `e` that is not named `AbortError`, the folder holding no entry
under a segment name at the start.  Then the job ends as failed; the folder holds the
complete files of the segments before `k` and no entry of a segment after `k`; of
segment `k` it holds no entry when `st` is the encode, the read or the `getFileHandle`
step, an empty entry when `st` is `createWritable`, `write` or `close`, and the complete
file when `st` is the delete step; the notices are the announcement, the progress
notices of the segments 1 to `k`, and the failure notice made of the message of `e` and
the last five log lines.  Segments are indexed from 0 here: segment `k` has the index
`k - 1`.  The hypothesis `hreach` says that the loop is followed up to segment `k`: it
holds whenever `n ≤ 2 ^ 53`. -/
theorem folder_after_failed_segment (fuel : Nat) (env : Env) (minutes : ℚ) (s : State)
    (file folderName : String) (d : ℚ) (n : Int) (k : Nat) (st : Step) (e : JsError)
    (hfile : s.uploadedFile = some file) (hopen : Opens env s folderName d) (hd : d ≠ 0)
    (hn : numSegments d (roundDouble (minutes * 60)) = .fin n) (hk : 1 ≤ k)
    (hkn : (k : Int) ≤ n) (hreach : n ≤ 2 ^ 53 ∨ k ≤ fuel ∧ k ≤ 2 ^ 53)
    (hok : ∀ j, j + 1 < k → SegmentOk env (loopCtx minutes file folderName d) j)
    (hfail : FailsAt env (loopCtx minutes file folderName d) (k - 1) st e)
    (hname : e.name ≠ "AbortError")
    (hfresh : ∀ j, ∀ entry ∈ s.folder, entry.name ≠ finalOutputName j file) :
    (splitVideo fuel env minutes s).1 = .failed ∧
    (∀ j, j + 1 < k →
      ⟨finalOutputName j file, some (internalOutputName j)⟩
        ∈ (splitVideo fuel env minutes s).2.folder) ∧
    (∀ j, k ≤ j → ∀ entry ∈ (splitVideo fuel env minutes s).2.folder,
      entry.name ≠ finalOutputName j file) ∧
    ((st = .exec ∨ st = .readFile ∨ st = .getFileHandle) →
      ∀ entry ∈ (splitVideo fuel env minutes s).2.folder,
        entry.name ≠ finalOutputName (k - 1) file) ∧
    ((st = .createWritable ∨ st = .write ∨ st = .close) →
      ⟨finalOutputName (k - 1) file, none⟩ ∈ (splitVideo fuel env minutes s).2.folder) ∧
    (st = .deleteFile →
      ⟨finalOutputName (k - 1) file, some (internalOutputName (k - 1))⟩
        ∈ (splitVideo fuel env minutes s).2.folder) ∧
    (splitVideo fuel env minutes s).2.alerts
      = s.alerts ++ announceNotice (.fin n)
          :: (List.range k).map (progressNotice (loopCtx minutes file folderName d))
          ++ [failureNotice e (splitVideo fuel env minutes s).2.ffmpegLogs] := by
  -- the steps before the loop
  have hopen1 : Opens env s.clearLogs folderName d := hopen
  have ho := openJob_ok env file folderName d s.clearLogs hopen1
  have hof := openJob_frame env file s.clearLogs
  have hc : (loopCtx minutes file folderName d).numSegments = .fin n := hn
  have hcount : k - 1 < loopCount fuel (loopCtx minutes file folderName d).numSegments := by
    rw [hc]
    show k - 1 < (if n ≤ 2 ^ 53 then n.toNat else min fuel (2 ^ 53))
    by_cases hb : n ≤ 2 ^ 53
    · rw [if_pos hb]
      omega
    · rcases hreach with h | ⟨h1, h2⟩
      · exact absurd h hb
      · rw [if_neg hb]
        have : k - 1 < fuel ∧ k - 1 < 2 ^ 53 := ⟨by omega, by omega⟩
        exact lt_min this.1 this.2
  have hrun := fun s1 => runSegments_fail fuel env (loopCtx minutes file folderName d) s1
    (k - 1) st e hcount (fun j hj => hok j (by omega)) hfail
  have ht : tryBlock fuel env minutes file s.clearLogs
      = runSegments fuel env (loopCtx minutes file folderName d)
          (openJob env file s.clearLogs).2 := by
    rw [tryBlock_eq]
    rcases hr : openJob env file s.clearLogs with ⟨r, s1⟩
    rw [hr] at ho
    simp only at ho
    subst ho
    simp [afterProbe, hd]
  obtain ⟨hr1, hr2, hr3⟩ := hrun (openJob env file s.clearLogs).2
  rw [← ht] at hr1 hr2 hr3
  obtain ⟨hs1, hs2, hs3⟩ := splitVideo_of_error fuel env minutes s file e hfile hr1
  rw [if_neg hname] at hs1 hs3
  have hk1 : k - 1 + 1 = k := by omega
  have hfolder : (splitVideo fuel env minutes s).2.folder
      = folderAfterFailure file (k - 1)
          (folderWithSegments file (List.range (k - 1)) s.folder) st := by
    rw [hs2, hr2, hof.1]; rfl
  have hbase : ∀ j, k - 1 ≤ j → ∀ entry ∈ folderWithSegments file (List.range (k - 1)) s.folder,
      entry.name ≠ finalOutputName j file :=
    fun j hj => folderWithSegments_fresh file (k - 1) s.folder hfresh j hj
  refine ⟨hs1, ?_, ?_, ?_, ?_, ?_, ?_⟩
  · intro j hj
    rw [hfolder, mem_folderAfterFailure_of_ne]
    · exact mem_folderWithSegments file j _ _ (List.mem_range.mpr (by omega))
    · intro heq
      have := finalOutputName_injective _ _ _ heq
      omega
  · intro j hj entry he hname
    rw [hfolder, mem_folderAfterFailure_of_ne] at he
    · exact hbase j (by omega) entry he hname
    · rw [hname]
      intro heq
      have := finalOutputName_injective _ _ _ heq
      omega
  · intro hst entry he
    have hf2 : folderAfterFailure file (k - 1)
        (folderWithSegments file (List.range (k - 1)) s.folder) st
        = folderWithSegments file (List.range (k - 1)) s.folder := by
      rcases hst with h | h | h <;> rw [h] <;> rfl
    rw [hfolder, hf2] at he
    exact hbase (k - 1) (le_refl _) entry he
  · intro hst
    have hf2 : folderAfterFailure file (k - 1)
        (folderWithSegments file (List.range (k - 1)) s.folder) st
        = folderTouch (finalOutputName (k - 1) file)
            (folderWithSegments file (List.range (k - 1)) s.folder) := by
      rcases hst with h | h | h <;> rw [h] <;> rfl
    rw [hfolder, hf2, folderTouch_fresh _ _ (hbase (k - 1) (le_refl _))]
    simp
  · intro hst
    rw [hfolder, hst]
    exact mem_folderWithSegment file (k - 1) _
  · rw [hs3, hr3, hof.2.1, hk1, hc]
    rfl

/-- C2 (amended), for the job of `deleteFails`: five planned segments, segment 1
succeeds and the delete step of segment 2 fails with an error named `Error`. -/
theorem folder_after_failed_segment_witness :
    (splitVideo 0 deleteFails 1 sampleState).1 = .failed ∧
    (∀ j, j + 1 < 2 →
      ⟨finalOutputName j "clip.mov", some (internalOutputName j)⟩
        ∈ (splitVideo 0 deleteFails 1 sampleState).2.folder) ∧
    (∀ j, 2 ≤ j → ∀ entry ∈ (splitVideo 0 deleteFails 1 sampleState).2.folder,
      entry.name ≠ finalOutputName j "clip.mov") ∧
    ⟨finalOutputName 1 "clip.mov", some (internalOutputName 1)⟩
        ∈ (splitVideo 0 deleteFails 1 sampleState).2.folder ∧
    (splitVideo 0 deleteFails 1 sampleState).2.alerts
      = sampleState.alerts ++ announceNotice (.fin 5)
          :: (List.range 2).map (progressNotice (loopCtx 1 "clip.mov" "out" 300))
          ++ [failureNotice ⟨"Error", "boom"⟩
                (splitVideo 0 deleteFails 1 sampleState).2.ffmpegLogs] := by
  have h := folder_after_failed_segment 0 deleteFails 1 sampleState "clip.mov" "out" 300 5 2
    .deleteFile ⟨"Error", "boom"⟩ rfl
    ⟨rfl, Or.inr ⟨rfl, rfl, rfl⟩, rfl, rfl, rfl⟩ (by norm_num) (by decide!) (by decide)
    (by decide) (Or.inl (by norm_num))
    (fun j hj => by
      have hj0 : j = 0 := by omega
      subst hj0
      exact ⟨⟨⟨"00:00:00", by decide!⟩, ⟨"00:01:00", by decide!⟩⟩, rfl, rfl, rfl, rfl, rfl,
        rfl, rfl⟩)
    ⟨⟨⟨"00:01:00", by decide!⟩, ⟨"00:01:00", by decide!⟩⟩, rfl, rfl, rfl, rfl, rfl, rfl, rfl⟩
    (by decide)
    (fun _ entry he => by simp [sampleState] at he)
  exact ⟨h.1, h.2.1, h.2.2.1, h.2.2.2.2.2.1 rfl, h.2.2.2.2.2.2⟩

/-! ## The job in which every call succeeds -/

theorem runSegments_ok (fuel : Nat) (env : Env) (ctx : LoopCtx) (s : State)
    (hb : ctx.numSegments.bounded = true)
    (hok : ∀ j, j < loopCount fuel ctx.numSegments → SegmentOk env ctx j)
    (hdel : env.deleteInput.result = .ok ()) :
    (runSegments fuel env ctx s).1 = .ok .completed ∧
    (runSegments fuel env ctx s).2.folder
      = folderWithSegments ctx.originalName (loopIndices fuel ctx.numSegments) s.folder ∧
    (runSegments fuel env ctx s).2.alerts
      = s.alerts ++ announceNotice ctx.numSegments
          :: (loopIndices fuel ctx.numSegments).map (progressNotice ctx)
          ++ [completionNotice ctx.numSegments] ∧
    (runSegments fuel env ctx s).2.trace.filterMap Event.windowArguments
      = s.trace.filterMap Event.windowArguments
        ++ ((loopIndices fuel ctx.numSegments).map
              (fun i => (startTime i ctx.splitDurationSeconds,
                ctx.splitDurationSeconds))).filterMap formattedWindow := by
  have hl := segmentLoop_ok env ctx (loopIndices fuel ctx.numSegments)
    { s with alerts := s.alerts ++ [announceNotice ctx.numSegments] }
    (fun j hj => hok j (List.mem_range.mp hj))
  unfold runSegments
  simp only [bind_apply, alert_apply]
  rcases hloop : segmentLoop env ctx (loopIndices fuel ctx.numSegments)
    { s with alerts := s.alerts ++ [announceNotice ctx.numSegments] } with ⟨r, s1⟩
  rw [hloop] at hl
  obtain ⟨hl1, hl2, hl3, hl4⟩ := hl
  simp only at hl1 hl2 hl3 hl4
  subst hl1
  simp [hb, hdel, State.record, hl2, hl3, hl4, Event.windowArguments]

/-- When every call succeeds and the loop ends by itself, the job completes: the folder
holds the complete file of every planned segment, the notices are the announcement,
one progress notice per segment and the completion notice, and the engine was run once
per planned window, in order, on the formatted start and length of the window. -/
theorem job_completes_when_every_call_succeeds (fuel : Nat) (env : Env) (minutes : ℚ)
    (s : State) (file folderName : String) (d : ℚ) (n : Int)
    (hfile : s.uploadedFile = some file) (hopen : Opens env s folderName d) (hd : d ≠ 0)
    (hn : numSegments d (roundDouble (minutes * 60)) = .fin n) (hb : n ≤ 2 ^ 53)
    (hok : ∀ j, j < n.toNat → SegmentOk env (loopCtx minutes file folderName d) j)
    (hdel : env.deleteInput.result = .ok ()) :
    (splitVideo fuel env minutes s).1 = .completed ∧
    (splitVideo fuel env minutes s).2.folder
      = folderWithSegments file (List.range n.toNat) s.folder ∧
    (splitVideo fuel env minutes s).2.alerts
      = s.alerts ++ announceNotice (.fin n)
          :: (List.range n.toNat).map (progressNotice (loopCtx minutes file folderName d))
          ++ [completionNotice (.fin n)] ∧
    (splitVideo fuel env minutes s).2.trace.filterMap Event.windowArguments
      = s.trace.filterMap Event.windowArguments
        ++ (plannedWindows fuel d (roundDouble (minutes * 60))).filterMap formattedWindow := by
  have hopen1 : Opens env s.clearLogs folderName d := hopen
  have ho := openJob_ok env file folderName d s.clearLogs hopen1
  have hof := openJob_frame env file s.clearLogs
  have ht : tryBlock fuel env minutes file s.clearLogs
      = runSegments fuel env (loopCtx minutes file folderName d)
          (openJob env file s.clearLogs).2 := by
    rw [tryBlock_eq]
    rcases hr : openJob env file s.clearLogs with ⟨r, s1⟩
    rw [hr] at ho
    simp only at ho
    subst ho
    simp [afterProbe, hd]
  have hc : (loopCtx minutes file folderName d).numSegments = .fin n := hn
  have hcount : loopCount fuel (loopCtx minutes file folderName d).numSegments = n.toNat := by
    rw [hc]
    show (if n ≤ 2 ^ 53 then n.toNat else min fuel (2 ^ 53)) = n.toNat
    rw [if_pos hb]
  have hidx : loopIndices fuel (loopCtx minutes file folderName d).numSegments
      = List.range n.toNat := by
    rw [loopIndices, hcount]
  have hbd : (loopCtx minutes file folderName d).numSegments.bounded = true := by
    rw [hc]
    show decide (n ≤ 2 ^ 53) = true
    exact decide_eq_true hb
  obtain ⟨hr1, hr2, hr3, hr4⟩ := runSegments_ok fuel env (loopCtx minutes file folderName d)
    (openJob env file s.clearLogs).2 hbd (fun j hj => hok j (by rwa [hcount] at hj)) hdel
  rw [← ht] at hr1 hr2 hr3 hr4
  have hs : splitVideo fuel env minutes s
      = (.completed, (tryBlock fuel env minutes file s.clearLogs).2) := by
    unfold splitVideo
    simp only [hfile, hr1]
  rw [hs]
  refine ⟨rfl, ?_, ?_, ?_⟩
  · rw [hr2, hof.1, hidx]; rfl
  · rw [hr3, hof.2.1, hidx, hc]; rfl
  · rw [hr4, hof.2.2.2.2.2]
    rfl

/-- The sample job (125 seconds, segments of 60) runs the engine once per planned
window, with the starts 0, 60 and 120 seconds. -/
theorem sample_job_runs_the_plan :
    (splitVideo 0 sampleEnv 1 sampleState).2.trace.filterMap Event.windowArguments
      = [("00:00:00", "00:01:00"), ("00:01:00", "00:01:00"), ("00:02:00", "00:01:00")] := by
  decide!

/-! ## The failure notice -/

/-- The last five log lines are the end of the log buffer, all of it when it has fewer
than five lines. -/
theorem lastFive_is_the_end (logs : List String) :
    lastFive logs <:+ logs ∧ (lastFive logs).length = min 5 logs.length := by
  refine ⟨List.drop_suffix _ _, ?_⟩
  simp only [lastFive, List.length_drop]
  omega

/-- An error raised inside the `try` block whose name is not `AbortError` ends the job
as failed, and the last notice shown is the failure notice: the message of the error,
then the last five log lines. -/
theorem failure_notice_unless_named_abort (fuel : Nat) (env : Env) (minutes : ℚ) (s : State)
    (file : String) (e : JsError) (hfile : s.uploadedFile = some file)
    (h : (tryBlock fuel env minutes file s.clearLogs).1 = .error e)
    (hname : e.name ≠ "AbortError") :
    (splitVideo fuel env minutes s).1 = .failed ∧
    (splitVideo fuel env minutes s).2.alerts.getLast?
      = some (failureNotice e (splitVideo fuel env minutes s).2.ffmpegLogs) ∧
    failureNotice e (splitVideo fuel env minutes s).2.ffmpegLogs
      = "영상 분할 중 오류가 발생했습니다: " ++ e.message ++ "\n\n[상세 정보]\n"
          ++ "\n".intercalate (lastFive (splitVideo fuel env minutes s).2.ffmpegLogs) := by
  obtain ⟨h1, _, h3⟩ := splitVideo_of_error fuel env minutes s file e hfile h
  rw [if_neg hname] at h1 h3
  refine ⟨h1, ?_, rfl⟩
  rw [h3]
  simp

end VideoSplitter
